import Mathlib

/-!
Verification development for the Nachos MP4 file system
(filehdr.cc, filesys.cc, directory.cc).

The C++ sources are shallowly embedded: pure routines become Lean
functions, routines that mutate the free map / the disk thread that
state explicitly, and routines that can hit a failed ASSERT, an
out-of-range sector access, or a read of bytes that were never written
in the modelled format return Option (none = the run aborts or reads
unmodelled garbage).

The header file filehdr.h (the layout constants NumDirect, NumIndirect,
NumMaxSect, SectorSize, ... and the declaration of the system-wide open
file table) is not part of the provided sources, so the constants are
carried in an FSConfig record; the spec fixes their roles (direct slots
first, then NumIndirect indirect-header slots, each indirect header
holding up to NumMaxSect direct pointers, dataSectors having
NumDirect + NumIndirect slots).
-/

/-- Layout constants of the file system.  Modelled from the spec: the
constants live in filehdr.h / filesys.h / directory.h which are not in
the provided sources.  numDirect direct slots, numIndirect
indirect-header slots (dataSectors has numDirect + numIndirect
entries), numMaxSect direct pointers per indirect header, sectorSize
bytes per sector, numSectors sectors on the device. -/
structure FSConfig where
  sectorSize : Nat
  numDirect : Nat
  numIndirect : Nat
  numMaxSect : Nat
  numSectors : Nat
  numDirEntries : Nat
  dirFileSize : Nat
  freeMapFileSize : Nat
  fileNameMaxLen : Nat
  deriving DecidableEq, Repr

/-- divRoundUp from utility.h: ceiling division on non-negative ints. -/
def divRoundUp (a b : Nat) : Nat := (a + b - 1) / b

/-! ## Bitmap (bitmap.cc / pbitmap.cc)

The persistent bitmap is a bit vector with one bit per sector.  It is
modelled as a List Bool (index = sector number, true = allocated).
Test / Mark / Clear ASSERT that the index is in range, so they return
Option. -/

/-- Bitmap.Test: ASSERTs the index is in range. -/
def bmTest (bm : List Bool) (s : Int) : Option Bool :=
  if 0 ≤ s ∧ s < (bm.length : Int) then some (bm.getD s.toNat false) else none

/-- Bitmap.Mark: sets bit s; ASSERTs the index is in range. -/
def bmMark (bm : List Bool) (s : Int) : Option (List Bool) :=
  if 0 ≤ s ∧ s < (bm.length : Int) then some (bm.set s.toNat true) else none

/-- Bitmap.Clear: clears bit s; ASSERTs the index is in range. -/
def bmClear (bm : List Bool) (s : Int) : Option (List Bool) :=
  if 0 ≤ s ∧ s < (bm.length : Int) then some (bm.set s.toNat false) else none

/-- Bitmap.NumClear: number of clear bits. -/
def numClear (bm : List Bool) : Nat := bm.count false

/-- Index of the lowest clear bit, if any (the scan inside FindAndSet). -/
def findClear : List Bool → Option Nat
  | [] => none
  | b :: bs => if b = false then some 0 else (findClear bs).map (· + 1)

/-- Bitmap.FindAndSet: returns the lowest clear bit after setting it,
or -1 (leaving the map unchanged) when every bit is set. -/
def findAndSet (bm : List Bool) : Int × List Bool :=
  match findClear bm with
  | none => (-1, bm)
  | some i => ((i : Int), bm.set i true)

/-! ## File header records (filehdr.cc) -/

/-- The on-disk record of a file header: numBytes, numSectors and the
dataSectors table (unused slots hold -1).  Indirect headers reuse this
layout; only their direct portion is meaningful. -/
structure HeaderRec where
  numBytes : Int
  numSectors : Int
  dataSectors : List Int
  deriving DecidableEq, Repr

/-- An in-memory FileHeader: the record fields plus the indirectTable
of loaded child headers (NULL = none).  A child is only ever used
through its record fields, so it is carried as a HeaderRec. -/
structure MemHeader where
  numBytes : Int
  numSectors : Int
  dataSectors : List Int
  indirectTable : List (Option HeaderRec)
  deriving DecidableEq, Repr

/-- HeaderRec produced by the FileHeader constructor (numBytes and
numSectors -1, dataSectors memset to -1). -/
def emptyRec (cfg : FSConfig) : HeaderRec :=
  { numBytes := -1, numSectors := -1
    dataSectors := List.replicate (cfg.numDirect + cfg.numIndirect) (-1) }

/-- MemHeader produced by the FileHeader constructor: dataSectors
memset to -1, every indirectTable entry NULL. -/
def mkFileHeader (cfg : FSConfig) : MemHeader :=
  { numBytes := -1, numSectors := -1
    dataSectors := List.replicate (cfg.numDirect + cfg.numIndirect) (-1)
    indirectTable := List.replicate cfg.numIndirect none }

/-- The record fields of an in-memory header (what WriteBack puts in
the header sector). -/
def MemHeader.toRec (h : MemHeader) : HeaderRec :=
  { numBytes := h.numBytes, numSectors := h.numSectors, dataSectors := h.dataSectors }

/-- The loop `dataSectors[i] = freeMap->FindAndSet()` repeated cnt
times starting at slot start, with the ASSERT(dataSectors[i] >= 0)
after each draw (none = the ASSERT fired). -/
def allocSeq : List Int → List Bool → Nat → Nat → Option (List Int × List Bool)
  | ds, bm, _, 0 => some (ds, bm)
  | ds, bm, start, n + 1 =>
    match findAndSet bm with
    | (s, bm1) =>
      if s < 0 then none
      else allocSeq (ds.set start s) bm1 (start + 1) n

/-- FileHeader.AllocateIndirect: pre-checks NumClear against sectorNum
(returning FALSE without touching the fresh header when it fails), then
sets numBytes / numSectors and draws sectorNum direct sectors. -/
def allocateIndirect (cfg : FSConfig) (bm : List Bool) (sectorNum : Nat) :
    Option (Bool × HeaderRec × List Bool) :=
  if numClear bm < sectorNum then some (false, emptyRec cfg, bm)
  else
    match allocSeq (emptyRec cfg).dataSectors bm 0 sectorNum with
    | none => none
    | some (ds, bm1) =>
      some (true, { numBytes := ((sectorNum * cfg.sectorSize : Nat) : Int),
                    numSectors := (sectorNum : Int), dataSectors := ds }, bm1)

/-- The indirect loop of FileHeader.Allocate: for each of cnt indirect
slots starting at index i, draw a sector for the indirect header
(ASSERT it is >= 0), give the child min(NumMaxSect, offset) sectors via
AllocateIndirect, and return FALSE immediately if the child fails. -/
def allocIndirLoop (cfg : FSConfig) :
    MemHeader → List Bool → Nat → Nat → Nat → Option (Bool × MemHeader × List Bool)
  | h, bm, _, _, 0 => some (true, h, bm)
  | h, bm, i, offset, n + 1 =>
    match findAndSet bm with
    | (s, bm1) =>
      if s < 0 then none
      else
        let h1 := { h with dataSectors := h.dataSectors.set (cfg.numDirect + i) s }
        let sectorNum := min cfg.numMaxSect offset
        match allocateIndirect cfg bm1 sectorNum with
        | none => none
        | some (ok, child, bm2) =>
          let h2 := { h1 with indirectTable := h1.indirectTable.set i (some child) }
          if ok then allocIndirLoop cfg h2 bm2 (i + 1) (offset - sectorNum) n
          else some (false, h2, bm2)

/-- FileHeader.Allocate on a freshly constructed header: set
numBytes / numSectors, pre-check NumClear >= numSectors, fill min
(numSectors, NumDirect) direct slots, then run the indirect loop for
min(divRoundUp(offset, NumMaxSect), NumIndirect) indirect slots where
offset is the number of sectors left after the direct slots.  The
fileSize argument is restricted to Nat (the claims only concern
non-negative sizes). -/
def allocate (cfg : FSConfig) (bm : List Bool) (fileSize : Nat) :
    Option (Bool × MemHeader × List Bool) :=
  let numSectors := divRoundUp fileSize cfg.sectorSize
  let h0 := { mkFileHeader cfg with
              numBytes := (fileSize : Int)
              numSectors := (numSectors : Int) }
  if numClear bm < numSectors then some (false, h0, bm)
  else
    let sectorNeeds := if numSectors ≤ cfg.numDirect then numSectors else cfg.numDirect
    let offset := numSectors - sectorNeeds
    match allocSeq h0.dataSectors bm 0 sectorNeeds with
    | none => none
    | some (ds, bm1) =>
      let h1 := { h0 with dataSectors := ds }
      if 0 < offset then
        let indexNeeds := divRoundUp offset cfg.numMaxSect
        let indirectSize := if indexNeeds ≤ cfg.numIndirect then indexNeeds else cfg.numIndirect
        allocIndirLoop cfg h1 bm1 0 offset indirectSize
      else some (true, h1, bm1)

/-- The inner loop of FileHeader.Deallocate over a loaded indirect
header, as written in the source:

for (int j = 0; j < indirectTable[i]->numSectors; j) \x7b
    ASSERT(freeMap->Test((int) indirectTable[i]->dataSectors[i]));
    freeMap->Clear((int) indirectTable[i]->dataSectors[i]);
\x7d

j is never incremented and the body indexes dataSectors with the outer
index i.  When numSectors <= 0 the loop exits at once.  Otherwise the
run never leaves the loop normally: either the first ASSERT fails
immediately (bit not set, or the slot is out of range), or the first
iteration clears the bit and the second iteration's ASSERT(Test(...))
fails on the now-clear bit.  Either way the run aborts, so the result
is none whenever numSectors > 0. -/
def deallocChild (ch : HeaderRec) (bm : List Bool) : Option (List Bool) :=
  if 0 < ch.numSectors then none else some bm

/-- The body of Deallocate's outer loop for index i: the inner loop
over indirectTable[i] when that entry is non-NULL (reading past the
NumIndirect entries of indirectTable finds the NULL-initialised
tripleIndirectTable pointers, so out-of-range indices behave as NULL,
modelled by getD .. none), then Test/Clear of dataSectors[i] when that
slot is not -1. -/
def deallocStep (h : MemHeader) (i : Nat) (bm : List Bool) : Option (List Bool) := do
  let bm1 ←
    match h.indirectTable.getD i none with
    | some ch => deallocChild ch bm
    | none => some bm
  if h.dataSectors.getD i 0 ≠ -1 then do
    let t ← bmTest bm1 (h.dataSectors.getD i 0)
    if t then bmClear bm1 (h.dataSectors.getD i 0) else none
  else
    some bm1

/-- The outer loop of Deallocate, running deallocStep for
i = 0 .. cnt-1. -/
def deallocLoop (h : MemHeader) : List Bool → Nat → Nat → Option (List Bool)
  | bm, _, 0 => some bm
  | bm, i, n + 1 => do
    let bm1 ← deallocStep h i bm
    deallocLoop h bm1 (i + 1) n

/-- FileHeader.Deallocate: the outer loop runs for
i = 0 .. NumMaxSect-1. -/
def deallocate (cfg : FSConfig) (h : MemHeader) (bm : List Bool) : Option (List Bool) :=
  deallocLoop h bm 0 cfg.numMaxSect

/-- FileHeader.ByteToSector.  position = offset / SectorSize; direct
slots answer directly; otherwise position -= NumDirect (necessarily
still >= 0 for a non-negative offset) and the answer is read from
indirect header position / NumMaxSect at index position % NumMaxSect.
Dereferencing a NULL indirectTable entry is none. -/
def byteToSector (cfg : FSConfig) (h : MemHeader) (offset : Nat) : Option Int :=
  let position := offset / cfg.sectorSize
  if position < cfg.numDirect then some (h.dataSectors.getD position 0)
  else
    let p := position - cfg.numDirect
    match h.indirectTable.getD (p / cfg.numMaxSect) none with
    | some ch => some (ch.dataSectors.getD (p % cfg.numMaxSect) 0)
    | none => none

/-- FileHeader.FileLength. -/
def fileLength (h : MemHeader) : Int := h.numBytes

/-- Number of data sectors Allocate computes for a request of fileSize
bytes (numSectors in the source). -/
def allocNS (cfg : FSConfig) (fileSize : Nat) : Nat := divRoundUp fileSize cfg.sectorSize

/-- Number of sectors left for the indirect level after the direct
slots (the offset variable of Allocate). -/
def allocOffset (cfg : FSConfig) (fileSize : Nat) : Nat :=
  allocNS cfg fileSize -
    (if allocNS cfg fileSize ≤ cfg.numDirect then allocNS cfg fileSize else cfg.numDirect)

/-- Number of indirect headers Allocate consumes (indirectSize in the
source; 0 when everything fits in the direct slots). -/
def allocK (cfg : FSConfig) (fileSize : Nat) : Nat :=
  if 0 < allocOffset cfg fileSize then
    (if divRoundUp (allocOffset cfg fileSize) cfg.numMaxSect ≤ cfg.numIndirect then
      divRoundUp (allocOffset cfg fileSize) cfg.numMaxSect
    else cfg.numIndirect)
  else 0

/-- Number of indirect-header slots of a header that are in use
(slot value different from -1). -/
def countIndirect (cfg : FSConfig) (h : MemHeader) : Nat :=
  ((List.range cfg.numIndirect).filter
    (fun i => h.dataSectors.getD (cfg.numDirect + i) 0 ≠ -1)).length

/-! ## Concrete fixtures used by the counterexamples and witnesses.

cfgA is a small but fully general configuration: 1 direct slot, 1
indirect slot, up to 2 direct pointers per indirect header, 1 byte per
sector (so byte counts and sector counts coincide), 8 sectors. -/

def cfgA : FSConfig :=
  { sectorSize := 1, numDirect := 1, numIndirect := 1, numMaxSect := 2,
    numSectors := 8, numDirEntries := 3, dirFileSize := 1, freeMapFileSize := 1,
    fileNameMaxLen := 9 }

/-- The child header allocate builds for a 2-byte file under cfgA. -/
def chA : HeaderRec := { numBytes := 1, numSectors := 1, dataSectors := [2, -1] }

/-- The header allocate builds for a 2-byte file under cfgA: one
direct data sector (0), one indirect header (sector 1) holding one
data sector (2). -/
def hdrA : MemHeader :=
  { numBytes := 2, numSectors := 2, dataSectors := [0, 1], indirectTable := [some chA] }

/-- The free map after allocating hdrA from a 6-bit all-clear map. -/
def bmA : List Bool := [true, true, true, false, false, false]

/-- The header allocate builds for a 3-byte file under cfgA (the
maximal representable size). -/
def hdrB : MemHeader :=
  { numBytes := 3, numSectors := 3, dataSectors := [0, 1],
    indirectTable := [some { numBytes := 2, numSectors := 2, dataSectors := [2, 3] }] }

/-- The header allocate builds for a 1-byte (direct only) file under
cfgA. -/
def hdrD : MemHeader :=
  { numBytes := 1, numSectors := 1, dataSectors := [0, -1], indirectTable := [none] }

/-! ## Directories (directory.cc)

C strings are modelled as NUL-free lists of characters; indexing past
the end of a string reads the terminating NUL (and, for the
fixed-size name buffers, the zero padding left by the constructor's
memset). -/

/-- One directory entry: in-use flag, bounded name, header sector,
directory flag. -/
structure DirEntry where
  inUse : Bool
  name : List Char
  sector : Int
  isDir : Bool
  deriving DecidableEq, Repr

/-- A directory block is a fixed table of entries. -/
abbrev DirTable := List DirEntry

/-- An entry of a freshly constructed directory (memset to zero,
inUse = FALSE). -/
def emptyEntry : DirEntry := { inUse := false, name := [], sector := 0, isDir := false }

/-- Directory::Directory(size): a table of size unused entries. -/
def mkDirectory (size : Nat) : DirTable := List.replicate size emptyEntry

/-- strncmp on NUL-free char lists ([] stands for the terminator): 0
when the first n characters agree, otherwise the signed difference of
the first mismatching pair. -/
def strncmp : List Char → List Char → Nat → Int
  | _, _, 0 => 0
  | [], [], _ + 1 => 0
  | [], b :: _, _ + 1 => 0 - (b.toNat : Int)
  | a :: _, [], _ + 1 => (a.toNat : Int)
  | a :: as, b :: bs, n + 1 => if a = b then strncmp as bs n else (a.toNat : Int) - (b.toNat : Int)

/-- The match predicate of Directory::FindIndex:
table[i].inUse && !strncmp(table[i].name, name, FileNameMaxLen). -/
def dirMatch (cfg : FSConfig) (name : List Char) (e : DirEntry) : Bool :=
  e.inUse && (strncmp e.name name cfg.fileNameMaxLen == 0)

/-- Directory::FindIndex: index of the first in-use entry whose name
matches, -1 if none. -/
def dirFindIndex (cfg : FSConfig) (tbl : DirTable) (name : List Char) : Int :=
  match tbl.findIdx? (dirMatch cfg name) with
  | some i => (i : Int)
  | none => -1

/-- Directory::Find: header sector of the first matching entry, -1 if
none. -/
def dirFind (cfg : FSConfig) (tbl : DirTable) (name : List Char) : Int :=
  match tbl.find? (dirMatch cfg name) with
  | some e => e.sector
  | none => -1

/-- Directory::Add: FALSE on duplicate name or full table; otherwise
the first free slot receives the entry, the stored name being the
strncpy truncation to FileNameMaxLen characters. -/
def dirAdd (cfg : FSConfig) (tbl : DirTable) (name : List Char) (sec : Int) (isDir : Bool) :
    Bool × DirTable :=
  if dirFindIndex cfg tbl name ≠ -1 then (false, tbl)
  else
    match tbl.findIdx? (fun e => !e.inUse) with
    | none => (false, tbl)
    | some i =>
      (true, tbl.set i
        { inUse := true, name := name.take cfg.fileNameMaxLen, sector := sec, isDir := isDir })

/-- Directory::Remove: clears the inUse flag of the first matching
entry. -/
def dirRemove (cfg : FSConfig) (tbl : DirTable) (name : List Char) : Bool × DirTable :=
  match tbl.findIdx? (dirMatch cfg name) with
  | none => (false, tbl)
  | some i => (true, tbl.set i { tbl.getD i emptyEntry with inUse := false })

/-- Index of the last '/' of a path (the mark variable of
FileSystem::ExtractBasePath).  For a path without any '/' mark is
read uninitialised, which the spec declares invalid input; modelled as
none. -/
def lastSlash (abs : List Char) : Option Nat :=
  ((List.range abs.length).filter (fun i => abs.get? i = some '/')).getLast?

/-- FileSystem::ExtractBasePath: base = characters before the last
'/', name = the rest of the path including that '/'. -/
def extractBasePath (abs : List Char) : Option (List Char × List Char) :=
  match lastSlash abs with
  | none => none
  | some m => some (abs.take m, abs.drop m)

/-- The leaf filename SearchPath copies when no further '/' is found:
every character from the offset to the terminator. -/
def pathComponentLeaf (name : List Char) (offset : Nat) : List Char := name.drop offset

/-- The intermediate component SearchPath copies when the next '/'
sits i characters after the offset: characters offset .. offset+i-1. -/
def pathComponentMid (name : List Char) (offset i : Nat) : List Char :=
  (name.drop offset).take i

/-! ## The system-wide open file table (filesys.cc / filesys.h)

The declaration of SysWideOpenFileTable and MAX_SYS_OPENF is in a
header that is not part of the provided sources.  Modelled from the
spec: a small fixed-capacity table indexed 1..MAX_OPEN_FILES, carried
as a total map that is none outside that range (OpenFileForId never
stores outside it: it would trip its ASSERT(fd <= MAX_SYS_OPENF)
first).  A slot value is an abstract open-file handle. -/

/-- FileSystem::CloseFileId: reads the slot; NULL yields 0 with the
table untouched, otherwise the handle is deleted, the slot NULLed and
1 returned. -/
def closeFileId (tbl : Int → Option Nat) (id : Int) : Int × (Int → Option Nat) :=
  match tbl id with
  | none => (0, tbl)
  | some _ => (1, fun j => if j = id then none else tbl j)

/-! ## The disk and the facade (filesys.cc)

The disk is a single sector-indexed store.  A sector holds the byte
image of a file-header record, of a directory table, or of the free
map; sectors never written since format read as none (garbage:
reinterpreting them, or a value of the wrong kind, aborts the model
run).  Writes prepend, reads take the most recent write.  ReadSector /
WriteSector ASSERT the sector index is valid.

Directory and free-map file bodies are read and written through the
owning file header (OpenFile(sector) re-reads the header from disk and
ReadAt/WriteAt then address the first data sector; the configuration
is meant to keep DirectoryFileSize and FreeMapFileSize within one
sector, as in the source geometry). -/

/-- Value stored in one sector. -/
inductive SectorVal where
  | hdrv (h : HeaderRec)
  | dirv (t : DirTable)
  | bitv (bm : List Bool)
  deriving DecidableEq, Repr

/-- The disk: most recent write first. -/
abbrev Disk := List (Nat × SectorVal)

/-- Contents of sector s (none = never written). -/
def diskRead (d : Disk) (s : Nat) : Option SectorVal :=
  match d.find? (fun p => p.1 == s) with
  | some p => some p.2
  | none => none

/-- ReadSector: ASSERTs the sector index is valid. -/
def diskReadI (cfg : FSConfig) (d : Disk) (s : Int) : Option SectorVal :=
  if 0 ≤ s ∧ s < (cfg.numSectors : Int) then diskRead d s.toNat else none

/-- WriteSector: ASSERTs the sector index is valid. -/
def diskWrite (cfg : FSConfig) (d : Disk) (s : Int) (v : SectorVal) : Option Disk :=
  if 0 ≤ s ∧ s < (cfg.numSectors : Int) then some ((s.toNat, v) :: d) else none

/-- Directory::FetchFrom through OpenFile(s): read the header at s,
then the table stored in its first data sector. -/
def readDir (cfg : FSConfig) (d : Disk) (s : Int) : Option DirTable :=
  match diskReadI cfg d s with
  | some (.hdrv h) =>
    match diskReadI cfg d (h.dataSectors.getD 0 (-1)) with
    | some (.dirv t) => some t
    | _ => none
  | _ => none

/-- Directory::WriteBack through OpenFile(s). -/
def writeDir (cfg : FSConfig) (d : Disk) (s : Int) (t : DirTable) : Option Disk :=
  match diskReadI cfg d s with
  | some (.hdrv h) => diskWrite cfg d (h.dataSectors.getD 0 (-1)) (.dirv t)
  | _ => none

/-- PersistentBitmap(freeMapFile, NumSectors): read the free-map image
through the header at sector 0. -/
def readBitmap (cfg : FSConfig) (d : Disk) : Option (List Bool) :=
  match diskReadI cfg d 0 with
  | some (.hdrv h) =>
    match diskReadI cfg d (h.dataSectors.getD 0 (-1)) with
    | some (.bitv bm) => some bm
    | _ => none
  | _ => none

/-- PersistentBitmap::WriteBack(freeMapFile). -/
def writeBitmap (cfg : FSConfig) (d : Disk) (bm : List Bool) : Option Disk :=
  match diskReadI cfg d 0 with
  | some (.hdrv h) => diskWrite cfg d (h.dataSectors.getD 0 (-1)) (.bitv bm)
  | _ => none

/-- The loop of FileHeader::WriteBack: write each live indirect header
to the sector named by its slot. -/
def writeChildren (cfg : FSConfig) (h : MemHeader) : Disk → Nat → Nat → Option Disk
  | d, _, 0 => some d
  | d, i, n + 1 =>
    match h.indirectTable.getD i none with
    | some ch =>
      match diskWrite cfg d (h.dataSectors.getD (cfg.numDirect + i) 0) (.hdrv ch) with
      | none => none
      | some d1 => writeChildren cfg h d1 (i + 1) n
    | none => writeChildren cfg h d (i + 1) n

/-- FileHeader::WriteBack(sector): the record, then the live indirect
headers. -/
def writeHeader (cfg : FSConfig) (d : Disk) (s : Int) (h : MemHeader) : Option Disk :=
  match diskWrite cfg d s (.hdrv h.toRec) with
  | none => none
  | some d1 => writeChildren cfg h d1 0 cfg.numIndirect

/-- The loop of FileHeader::FetchFrom: load children until the first
-1 slot (reading a sector that does not hold a header record is
garbage). -/
def fetchChildren (cfg : FSConfig) (d : Disk) (r : HeaderRec) :
    List (Option HeaderRec) → Nat → Nat → Option (List (Option HeaderRec))
  | tb, _, 0 => some tb
  | tb, i, n + 1 =>
    if r.dataSectors.getD (cfg.numDirect + i) 0 = -1 then some tb
    else
      match diskReadI cfg d (r.dataSectors.getD (cfg.numDirect + i) 0) with
      | some (.hdrv ch) => fetchChildren cfg d r (tb.set i (some ch)) (i + 1) n
      | _ => none

/-- FileHeader::FetchFrom(sector) on a fresh header. -/
def fetchHeader (cfg : FSConfig) (d : Disk) (s : Int) : Option MemHeader :=
  match diskReadI cfg d s with
  | some (.hdrv r) =>
    match fetchChildren cfg d r (List.replicate cfg.numIndirect none) 0 cfg.numIndirect with
    | none => none
    | some tb =>
      some { numBytes := r.numBytes, numSectors := r.numSectors,
             dataSectors := r.dataSectors, indirectTable := tb }
  | _ => none

/-- The scan inside Directory::SearchPath: the distance i >= 1 of the
next '/' strictly after the offset, none when the terminator comes
first (the leaf case). -/
def findSlashFrom (name : List Char) (offset : Nat) : Option Nat :=
  (List.range' 1 (name.length - offset - 1)).find? (fun i => name.getD (offset + i) ' ' == '/')

/-- Directory::SearchPath with explicit fuel (the source recursion
advances the offset by at least one per step, so name.length + 1 units
of fuel never run out; fuel exhaustion is none).  name[1] == NUL is
the root check; an intermediate component is resolved with Find and
the search descends into that sector read as a directory, with no
check that the entry is one. -/
def searchPathF (cfg : FSConfig) (d : Disk) : Nat → DirTable → List Char → Nat → Option Int
  | 0, _, _, _ => none
  | fuel + 1, tbl, name, offset =>
    if name.length ≤ 1 then some 1
    else
      match findSlashFrom name offset with
      | none => some (dirFind cfg tbl (pathComponentLeaf name offset))
      | some i =>
        if dirFind cfg tbl (pathComponentMid name offset i) = -1 then some (-1)
        else
          match readDir cfg d (dirFind cfg tbl (pathComponentMid name offset i)) with
          | none => none
          | some tbl2 => searchPathF cfg d fuel tbl2 name (i + offset)

/-- Directory::SearchPath. -/
def searchPath (cfg : FSConfig) (d : Disk) (tbl : DirTable) (name : List Char) (offset : Nat) :
    Option Int :=
  searchPathF cfg d (name.length + 1) tbl name offset

/-- FileSystem::Create.  Returns the 0/1 result and the disk after the
call; none when the run aborts or reads garbage. -/
def create (cfg : FSConfig) (d : Disk) (name : List Char) (initialSize : Nat) (isDir : Bool) :
    Option (Int × Disk) :=
  match readDir cfg d 1 with
  | none => none
  | some rootTbl =>
    match extractBasePath name with
    | none => none
    | some (basePath, actName) =>
      match searchPath cfg d rootTbl basePath 0 with
      | none => none
      | some sector =>
        if sector = -1 then some (0, d)
        else
          match readDir cfg d sector with
          | none => none
          | some tbl =>
            if dirFind cfg tbl actName ≠ -1 then some (0, d)
            else
              match readBitmap cfg d with
              | none => none
              | some bm =>
                match findAndSet bm with
                | (hdrSec, bm1) =>
                  if hdrSec = -1 then some (0, d)
                  else
                    match dirAdd cfg tbl actName hdrSec isDir with
                    | (false, _) => some (0, d)
                    | (true, tbl1) =>
                      match allocate cfg bm1 (if isDir then cfg.dirFileSize else initialSize) with
                      | none => none
                      | some res =>
                        match res with
                        | (ok, hdr1, bm2) =>
                        if ok = false then some (0, d)
                        else
                        match writeHeader cfg d hdrSec hdr1 with
                        | none => none
                        | some d1 =>
                          match writeDir cfg d1 sector tbl1 with
                          | none => none
                          | some dd2 =>
                            match writeBitmap cfg dd2 bm2 with
                            | none => none
                            | some d3 =>
                              if isDir then
                                match writeDir cfg d3 hdrSec (mkDirectory cfg.numDirEntries) with
                                | none => none
                                | some d4 => some (1, d4)
                              else some (1, d3)

/-- The loop of Directory::Destroy with explicit fuel for the
recursion into subdirectories: for each in-use entry, recursively
destroy a subdirectory (writing its emptied table back), then fetch
the entry's header, deallocate it, clear its header-sector bit and
remove the entry from the (threaded) table. -/
def destroyGo (cfg : FSConfig) :
    Nat → Disk → DirTable → List Bool → Nat → Nat → Option (DirTable × Disk × List Bool)
  | _, d, tbl, bm, _, 0 => some (tbl, d, bm)
  | fuel, d, tbl, bm, idx, n + 1 =>
    if (tbl.getD idx emptyEntry).inUse then
      match (if (tbl.getD idx emptyEntry).isDir then
          match fuel with
          | 0 => none
          | fuel' + 1 =>
            match readDir cfg d (tbl.getD idx emptyEntry).sector with
            | none => none
            | some ctbl =>
              match destroyGo cfg fuel' d ctbl bm 0 ctbl.length with
              | none => none
              | some (ctbl1, dc, bmc) =>
                match writeDir cfg dc (tbl.getD idx emptyEntry).sector ctbl1 with
                | none => none
                | some dc1 => some (dc1, bmc)
        else some (d, bm)) with
      | none => none
      | some (d1, bm1) =>
        match fetchHeader cfg d1 (tbl.getD idx emptyEntry).sector with
        | none => none
        | some fh =>
          match deallocate cfg fh bm1 with
          | none => none
          | some bm2 =>
            match bmClear bm2 (tbl.getD idx emptyEntry).sector with
            | none => none
            | some bm3 =>
              destroyGo cfg fuel d1 ((dirRemove cfg tbl (tbl.getD idx emptyEntry).name).2) bm3 (idx + 1) n
    else destroyGo cfg fuel d tbl bm (idx + 1) n
  termination_by fuel _ _ _ _ n => (fuel, n)

/-- Directory::Destroy on the directory opened at sector s. -/
def destroy (cfg : FSConfig) (fuel : Nat) (d : Disk) (s : Int) (tbl : DirTable)
    (bm : List Bool) : Option (Disk × List Bool) :=
  match destroyGo cfg fuel d tbl bm 0 tbl.length with
  | none => none
  | some (tbl1, d1, bm1) =>
    match writeDir cfg d1 s tbl1 with
    | none => none
    | some d2 => some (d2, bm1)

/-- FileSystem::Remove. -/
def remove (cfg : FSConfig) (fuel : Nat) (d : Disk) (name : List Char) (recur : Bool) :
    Option (Bool × Disk) :=
  match readDir cfg d 1 with
  | none => none
  | some baseTbl0 =>
    match extractBasePath name with
    | none => none
    | some (basePath, filename) =>
      match searchPath cfg d baseTbl0 basePath 0 with
      | none => none
      | some bsec =>
        if bsec = -1 then some (false, d)
        else
          match readDir cfg d bsec with
          | none => none
          | some tbl =>
            if dirFind cfg tbl filename = -1 ∨ dirFind cfg tbl filename = 1 then
              some (false, d)
            else
              match readBitmap cfg d with
              | none => none
              | some bm =>
                match (if recur then
                    match readDir cfg d (dirFind cfg tbl filename) with
                    | none => none
                    | some ttbl =>
                      match destroy cfg fuel d (dirFind cfg tbl filename) ttbl bm with
                      | none => none
                      | some (dr, bmr) => some (dr, bmr)
                  else some (d, bm)) with
                | none => none
                | some (d1, bm1) =>
                  match fetchHeader cfg d1 (dirFind cfg tbl filename) with
                  | none => none
                  | some fh =>
                    match deallocate cfg fh bm1 with
                    | none => none
                    | some bm2 =>
                      match bmClear bm2 (dirFind cfg tbl filename) with
                      | none => none
                      | some bm3 =>
                        match writeBitmap cfg d1 bm3 with
                        | none => none
                        | some dd2 =>
                          match writeDir cfg dd2 bsec ((dirRemove cfg tbl filename).2) with
                          | none => none
                          | some d3 => some (true, d3)

/-- FileSystem::FileSystem(format = TRUE): mark sectors 0 and 1,
allocate the free-map and root-directory files (both ASSERTed to
succeed), write both headers, then the bitmap, then the empty root
directory. -/
def format (cfg : FSConfig) : Option Disk :=
  match bmMark (List.replicate cfg.numSectors false) 0 with
  | none => none
  | some bm1 =>
    match bmMark bm1 1 with
    | none => none
    | some bm2 =>
      match allocate cfg bm2 cfg.freeMapFileSize with
      | some (true, mapHdr, bm3) =>
        match allocate cfg bm3 cfg.dirFileSize with
        | some (true, dirHdr, bm4) =>
          match writeHeader cfg [] 0 mapHdr with
          | none => none
          | some d1 =>
            match writeHeader cfg d1 1 dirHdr with
            | none => none
            | some dd2 =>
              match writeBitmap cfg dd2 bm4 with
              | none => none
              | some d3 =>
                match writeDir cfg d3 1 (mkDirectory cfg.numDirEntries) with
                | none => none
                | some d4 => some d4
        | _ => none
      | _ => none

/-- A 16-sector volume configuration mirroring the source geometry at
small scale: 128-byte sectors, 4 direct slots, 2 indirect slots of 6
pointers each, a 4-entry root directory whose table (64 bytes) and
free map image (2 bytes) each fit one sector. -/
def cfgV : FSConfig :=
  { sectorSize := 128, numDirect := 4, numIndirect := 2, numMaxSect := 6,
    numSectors := 16, numDirEntries := 4, dirFileSize := 64, freeMapFileSize := 2,
    fileNameMaxLen := 9 }

/-- The disk right after format cfgV: free-map header at 0 (data
sector 2), root-directory header at 1 (data sector 3), bitmap image
marking 0..3, empty root table. -/
def dF : Disk :=
  [(3, SectorVal.dirv (List.replicate 4 emptyEntry)),
   (2, SectorVal.bitv [true, true, true, true, false, false, false, false,
                       false, false, false, false, false, false, false, false]),
   (1, SectorVal.hdrv { numBytes := 64, numSectors := 1, dataSectors := [3, -1, -1, -1, -1, -1] }),
   (0, SectorVal.hdrv { numBytes := 2, numSectors := 1, dataSectors := [2, -1, -1, -1, -1, -1] })]

/-- The disk after create cfgV dF "/a" 10: header at 4, data at 5. -/
def dV1 : Disk :=
  [(2, SectorVal.bitv [true, true, true, true, true, true, false, false,
                       false, false, false, false, false, false, false, false]),
   (3, SectorVal.dirv [{ inUse := true, name := ['/', 'a'], sector := 4, isDir := false },
                       emptyEntry, emptyEntry, emptyEntry]),
   (4, SectorVal.hdrv { numBytes := 10, numSectors := 1, dataSectors := [5, -1, -1, -1, -1, -1] }),
   (3, SectorVal.dirv (List.replicate 4 emptyEntry)),
   (2, SectorVal.bitv [true, true, true, true, false, false, false, false,
                       false, false, false, false, false, false, false, false]),
   (1, SectorVal.hdrv { numBytes := 64, numSectors := 1, dataSectors := [3, -1, -1, -1, -1, -1] }),
   (0, SectorVal.hdrv { numBytes := 2, numSectors := 1, dataSectors := [2, -1, -1, -1, -1, -1] })]

/-! ## Freshness of allocated sectors (towards the round-trip claim) -/

/-- bm2 extends bm: same length и every set bit stays set. -/
def bmSub (bm bm2 : List Bool) : Prop :=
  bm2.length = bm.length ∧
  ∀ u, u < bm.length → bm.getD u false = true → bm2.getD u false = true

/-- Every sector a header references: its non(-1) dataSectors slots
(direct data sectors and indirect-header sectors) and the non(-1)
direct slots of each loaded indirect header. -/
def refSectors (cfg : FSConfig) (h : MemHeader) : List Int :=
  h.dataSectors.filter (fun x => x ≠ -1) ++
  ((List.range cfg.numIndirect).map (fun i =>
    match h.indirectTable.getD i none with
    | some ch => ch.dataSectors.filter (fun x => x ≠ -1)
    | none => [])).flatten

/-- The header FetchFrom reproduces in the C7 counterexample: the
child record reloaded as the top-level header. -/
def hdrX : MemHeader :=
  { numBytes := 1, numSectors := 1, dataSectors := [2, -1], indirectTable := [none] }

/-! ## Bitmap consistency (C2)

The claimed invariant, stated from the spec's words: the marked bits
are exactly sectors 0 and 1 plus the header sectors, indirect-header
sectors and data sectors of every file reachable from the root
directory.  Footprints are read from the persisted state. -/

/-- Sector u belongs to the file whose header lives at sector s: it is
the header sector itself, a non(-1) entry of its dataSectors (direct
data or indirect-header sector), or a non(-1) direct entry of an
indirect header referenced by one of the indirect slots. -/
def FileCovers (cfg : FSConfig) (d : Disk) (s : Nat) (u : Nat) : Prop :=
  u = s ∨
  ∃ r, diskRead d s = some (.hdrv r) ∧
    (((u : Int) ∈ r.dataSectors.filter (fun x => x ≠ -1)) ∨
     (∃ j, j < cfg.numIndirect ∧
       r.dataSectors.getD (cfg.numDirect + j) 0 ≠ -1 ∧
       ∃ cr, diskReadI cfg d (r.dataSectors.getD (cfg.numDirect + j) 0) = some (.hdrv cr) ∧
         (u : Int) ∈ cr.dataSectors.filter (fun x => x ≠ -1)))

/-- Directory sectors reachable from the root by following in-use
directory entries. -/
inductive ReachDir (cfg : FSConfig) (d : Disk) : Nat → Prop where
  | root : ReachDir cfg d 1
  | step {s : Nat} {tbl : DirTable} {e : DirEntry} :
      ReachDir cfg d s → readDir cfg d s = some tbl → e ∈ tbl →
      e.inUse = true → e.isDir = true → ReachDir cfg d e.sector.toNat

/-- A directory entry of a reachable directory (a file reachable from
the root). -/
def EntryReachable (cfg : FSConfig) (d : Disk) (e : DirEntry) : Prop :=
  ∃ s tbl, ReachDir cfg d s ∧ readDir cfg d s = some tbl ∧ e ∈ tbl ∧ e.inUse = true

/-- C2's claimed invariant, word for word: marked bits = sectors 0 and
1 plus the footprints of the files reachable from the root. -/
def BitmapConsistent (cfg : FSConfig) (d : Disk) : Prop :=
  ∃ bm, readBitmap cfg d = some bm ∧
    ∀ u, u < cfg.numSectors →
      (bm.getD u false = true ↔
        (u = 0 ∨ u = 1 ∨
         ∃ e, EntryReachable cfg d e ∧ FileCovers cfg d e.sector.toNat u))

/-- The amended invariant: the footprints of the free-map file (header
sector 0) and the root-directory file (header sector 1) are part of
the marked set as well. -/
def BitmapConsistentSys (cfg : FSConfig) (d : Disk) : Prop :=
  ∃ bm, readBitmap cfg d = some bm ∧
    ∀ u, u < cfg.numSectors →
      (bm.getD u false = true ↔
        (FileCovers cfg d 0 u ∨ FileCovers cfg d 1 u ∨
         ∃ e, EntryReachable cfg d e ∧ FileCovers cfg d e.sector.toNat u))

/-! ## Basic bitmap lemmas -/

theorem findClear_some {bm : List Bool} {i : Nat} (h : findClear bm = some i) :
    i < bm.length ∧ bm.getD i false = false := by
  induction bm generalizing i with
  | nil => simp [findClear] at h
  | cons b bs ih =>
    by_cases hb : b = false
    · subst hb
      simp [findClear] at h
      subst h
      simp
    · simp [findClear, hb] at h
      obtain ⟨j, hj, rfl⟩ := h
      obtain ⟨h1, h2⟩ := ih hj
      refine ⟨by simp; omega, ?_⟩
      rw [List.getD_cons_succ]
      exact h2

theorem findClear_none {bm : List Bool} (h : findClear bm = none) :
    numClear bm = 0 := by
  induction bm with
  | nil => simp [numClear]
  | cons b bs ih =>
    by_cases hb : b = false
    · subst hb; simp [findClear] at h
    · simp [findClear, hb] at h
      have hb' : b = true := by cases b <;> simp_all
      subst hb'
      simp [numClear, List.count_cons] at *
      exact ih (by simpa using h)

theorem numClear_set_true {bm : List Bool} {i : Nat}
    (hlt : i < bm.length) (hf : bm.getD i false = false) :
    numClear bm = numClear (bm.set i true) + 1 := by
  induction bm generalizing i with
  | nil => simp at hlt
  | cons b bs ih =>
    cases i with
    | zero =>
      simp at hf
      subst hf
      simp [numClear, List.count_cons]
    | succ j =>
      rw [List.length_cons] at hlt
      rw [List.getD_cons_succ] at hf
      have := ih (by omega) hf
      simp only [numClear, List.set_cons_succ, List.count_cons] at *
      omega

theorem numClear_set_false {bm : List Bool} {i : Nat}
    (hlt : i < bm.length) (hf : bm.getD i false = true) :
    numClear (bm.set i false) = numClear bm + 1 := by
  induction bm generalizing i with
  | nil => simp at hlt
  | cons b bs ih =>
    cases i with
    | zero =>
      simp at hf
      subst hf
      simp [numClear, List.count_cons]
    | succ j =>
      rw [List.length_cons] at hlt
      rw [List.getD_cons_succ] at hf
      have := ih (by omega) hf
      simp only [numClear, List.set_cons_succ, List.count_cons] at *
      omega

theorem findAndSet_neg {bm : List Bool} {s : Int} {bm1 : List Bool}
    (h : findAndSet bm = (s, bm1)) (hs : s < 0) : bm1 = bm ∧ s = -1 := by
  unfold findAndSet at h
  cases hfc : findClear bm with
  | none => rw [hfc] at h; exact ⟨(Prod.mk.injEq .. ▸ h).2.symm, ((Prod.mk.injEq .. ▸ h).1).symm⟩
  | some i =>
    rw [hfc] at h
    have : s = (i : Int) := ((Prod.mk.injEq .. ▸ h).1).symm
    omega

theorem findAndSet_nonneg {bm : List Bool} {s : Int} {bm1 : List Bool}
    (h : findAndSet bm = (s, bm1)) (hs : 0 ≤ s) :
    s.toNat < bm.length ∧ bm.getD s.toNat false = false ∧
    bm1 = bm.set s.toNat true ∧ numClear bm = numClear bm1 + 1 ∧
    bm1.length = bm.length := by
  unfold findAndSet at h
  cases hfc : findClear bm with
  | none =>
    rw [hfc] at h
    have : s = (-1 : Int) := ((Prod.mk.injEq .. ▸ h).1).symm
    omega
  | some i =>
    rw [hfc] at h
    obtain ⟨h1, h2⟩ := Prod.mk.injEq .. ▸ h
    obtain ⟨hi1, hi2⟩ := findClear_some hfc
    have hsi : s = (i : Int) := h1.symm
    subst hsi
    simp only [Int.toNat_ofNat]
    refine ⟨hi1, hi2, h2.symm, ?_, by simp [h2.symm]⟩
    rw [← h2]
    exact numClear_set_true hi1 hi2

/-! ## Structural lemmas about Allocate -/

theorem getD_set_ne {α : Type} (l : List α) (i k : Nat) (x d : α) (h : i ≠ k) :
    (l.set i x).getD k d = l.getD k d := by
  simp [List.getD, List.getElem?_set_ne h]

theorem getD_set_self {α : Type} (l : List α) (i : Nat) (x d : α) (h : i < l.length) :
    (l.set i x).getD i d = x := by
  simp [List.getD, List.getElem?_set_self h]

theorem allocSeq_numClear {cnt : Nat} : ∀ {ds bm start ds2 bm2},
    allocSeq ds bm start cnt = some (ds2, bm2) →
    numClear bm = numClear bm2 + cnt ∧ bm2.length = bm.length := by
  induction cnt with
  | zero =>
    intro ds bm start ds2 bm2 h
    simp [allocSeq] at h
    obtain ⟨rfl, rfl⟩ := h
    simp
  | succ n ih =>
    intro ds bm start ds2 bm2 h
    simp only [allocSeq] at h
    rcases hfs : findAndSet bm with ⟨s, bm1⟩
    rw [hfs] at h
    by_cases hs : s < 0
    · simp [hs] at h
    · simp only [if_neg hs] at h
      obtain ⟨hlt, hget, hset, hnum, hlen⟩ := findAndSet_nonneg hfs (by omega)
      obtain ⟨ih1, ih2⟩ := ih h
      constructor
      · omega
      · rw [ih2, hlen]

theorem allocSeq_slots {cnt : Nat} : ∀ {ds bm start ds2 bm2},
    allocSeq ds bm start cnt = some (ds2, bm2) →
    ds2.length = ds.length ∧
    (∀ k, k < start ∨ start + cnt ≤ k → ds2.getD k 0 = ds.getD k 0) ∧
    (∀ j, j < cnt → start + j < ds.length → 0 ≤ ds2.getD (start + j) 0) := by
  induction cnt with
  | zero =>
    intro ds bm start ds2 bm2 h
    simp [allocSeq] at h
    obtain ⟨rfl, rfl⟩ := h
    exact ⟨rfl, fun k _ => rfl, fun j hj => by omega⟩
  | succ n ih =>
    intro ds bm start ds2 bm2 h
    simp only [allocSeq] at h
    rcases hfs : findAndSet bm with ⟨s, bm1⟩
    rw [hfs] at h
    by_cases hs : s < 0
    · simp [hs] at h
    · simp only [if_neg hs] at h
      obtain ⟨ihlen, ihout, ihin⟩ := ih h
      have hsetlen : (ds.set start s).length = ds.length := by simp
      refine ⟨by rw [ihlen, hsetlen], ?_, ?_⟩
      · intro k hk
        have h1 : ds2.getD k 0 = (ds.set start s).getD k 0 :=
          ihout k (by omega)
        rw [h1]
        exact getD_set_ne ds start k s 0 (by omega)
      · intro j hj hjlen
        cases j with
        | zero =>
          have h1 : ds2.getD (start + 0) 0 = (ds.set start s).getD start 0 := by
            rw [Nat.add_zero]
            exact ihout start (by omega)
          rw [h1, getD_set_self ds start s 0 (by omega)]
          omega
        | succ m =>
          have := ihin m (by omega) (by rw [hsetlen]; omega)
          have heq : start + 1 + m = start + (m + 1) := by omega
          rw [heq] at this
          exact this

theorem allocateIndirect_true {cfg : FSConfig} {bm : List Bool} {k : Nat}
    {ch : HeaderRec} {bm2 : List Bool}
    (h : allocateIndirect cfg bm k = some (true, ch, bm2)) :
    numClear bm = numClear bm2 + k ∧ bm2.length = bm.length ∧
    ch.numSectors = (k : Int) ∧
    ch.dataSectors.length = cfg.numDirect + cfg.numIndirect := by
  unfold allocateIndirect at h
  by_cases hpre : numClear bm < k
  · simp [hpre] at h
  · simp only [if_neg hpre] at h
    rcases hseq : allocSeq (emptyRec cfg).dataSectors bm 0 k with _ | ⟨ds, bm1⟩
    · rw [hseq] at h; simp at h
    · rw [hseq] at h
      simp only [Option.some.injEq, Prod.mk.injEq] at h
      obtain ⟨-, hch, hbm⟩ := h
      obtain ⟨hn, hlen⟩ := allocSeq_numClear hseq
      obtain ⟨hdslen, -, -⟩ := allocSeq_slots hseq
      subst hbm
      refine ⟨hn, hlen, ?_, ?_⟩
      · rw [← hch]
      · rw [← hch]
        simpa [emptyRec] using hdslen

theorem allocIndirLoop_numClear {cfg : FSConfig} {cnt : Nat} :
    ∀ {h : MemHeader} {bm : List Bool} {i offset : Nat} {h2 : MemHeader} {bm2 : List Bool},
    offset ≤ cnt * cfg.numMaxSect →
    allocIndirLoop cfg h bm i offset cnt = some (true, h2, bm2) →
    numClear bm = numClear bm2 + cnt + offset ∧ bm2.length = bm.length := by
  induction cnt with
  | zero =>
    intro h bm i offset h2 bm2 hoff heq
    simp [allocIndirLoop] at heq
    obtain ⟨rfl, rfl⟩ := heq
    omega
  | succ n ih =>
    intro h bm i offset h2 bm2 hoff heq
    simp only [allocIndirLoop] at heq
    rcases hfs : findAndSet bm with ⟨s, bm1⟩
    rw [hfs] at heq
    by_cases hs : s < 0
    · simp [hs] at heq
    · simp only [if_neg hs] at heq
      rcases hai : allocateIndirect cfg bm1 (min cfg.numMaxSect offset) with _ | ⟨ok, child, bm2'⟩
      · rw [hai] at heq; simp at heq
      · rw [hai] at heq
        cases ok with
        | false => simp at heq
        | true =>
          simp only [if_pos rfl] at heq
          have hrem : offset - min cfg.numMaxSect offset ≤ n * cfg.numMaxSect := by
            rcases Nat.le_total cfg.numMaxSect offset with hc | hc
            · simp only [Nat.min_def, if_pos hc]
              have : offset ≤ (n + 1) * cfg.numMaxSect := hoff
              calc offset - cfg.numMaxSect ≤ (n + 1) * cfg.numMaxSect - cfg.numMaxSect := by omega
              _ = n * cfg.numMaxSect := by rw [Nat.succ_mul]; omega
            · have : min cfg.numMaxSect offset = offset := by omega
              rw [this]; omega
          obtain ⟨ihn, ihlen⟩ := ih hrem heq
          obtain ⟨-, -, -, hnum, hlen⟩ := findAndSet_nonneg hfs (by omega)
          obtain ⟨hain, hailen, -, -⟩ := allocateIndirect_true hai
          have hmin : min cfg.numMaxSect offset ≤ offset := Nat.min_le_right ..
          constructor
          · omega
          · rw [ihlen, hailen, hlen]

theorem allocIndirLoop_struct {cfg : FSConfig} {cnt : Nat} :
    ∀ {h : MemHeader} {bm : List Bool} {i offset : Nat} {h2 : MemHeader} {bm2 : List Bool},
    h.dataSectors.length = cfg.numDirect + cfg.numIndirect →
    h.indirectTable.length = cfg.numIndirect →
    i + cnt ≤ cfg.numIndirect →
    allocIndirLoop cfg h bm i offset cnt = some (true, h2, bm2) →
    (h2.numBytes = h.numBytes ∧ h2.numSectors = h.numSectors) ∧
    (h2.dataSectors.length = h.dataSectors.length ∧
     h2.indirectTable.length = h.indirectTable.length) ∧
    (∀ k, k < cfg.numDirect + i ∨ cfg.numDirect + i + cnt ≤ k →
      h2.dataSectors.getD k 0 = h.dataSectors.getD k 0) ∧
    (∀ j, j < cnt → 0 ≤ h2.dataSectors.getD (cfg.numDirect + i + j) 0) ∧
    (∀ j, j < i ∨ i + cnt ≤ j →
      h2.indirectTable.getD j none = h.indirectTable.getD j none) ∧
    (∀ j, j < cnt → (h2.indirectTable.getD (i + j) none).isSome) := by
  induction cnt with
  | zero =>
    intro h bm i offset h2 bm2 hdl hil hcnt heq
    simp [allocIndirLoop] at heq
    obtain ⟨rfl, rfl⟩ := heq
    exact ⟨⟨rfl, rfl⟩, ⟨rfl, rfl⟩, fun k _ => rfl, fun j hj => by omega,
           fun j _ => rfl, fun j hj => by omega⟩
  | succ n ih =>
    intro h bm i offset h2 bm2 hdl hil hcnt heq
    simp only [allocIndirLoop] at heq
    rcases hfs : findAndSet bm with ⟨s, bm1⟩
    rw [hfs] at heq
    by_cases hs : s < 0
    · simp [hs] at heq
    · simp only [if_neg hs] at heq
      rcases hai : allocateIndirect cfg bm1 (min cfg.numMaxSect offset) with _ | ⟨ok, child, bm2'⟩
      · rw [hai] at heq; simp at heq
      · rw [hai] at heq
        cases ok with
        | false => simp at heq
        | true =>
          simp only [if_pos rfl] at heq
          set hmid : MemHeader :=
            { h with dataSectors := h.dataSectors.set (cfg.numDirect + i) s,
                     indirectTable := h.indirectTable.set i
                       (some child) } with hmiddef
          have hmid_dl : hmid.dataSectors.length = cfg.numDirect + cfg.numIndirect := by
            simp [hmiddef, hdl]
          have hmid_il : hmid.indirectTable.length = cfg.numIndirect := by
            simp [hmiddef, hil]
          have heq2 : allocIndirLoop cfg hmid bm2' (i + 1) (offset - min cfg.numMaxSect offset) n =
              some (true, h2, bm2) := heq
          obtain ⟨⟨e1, e2⟩, ⟨e3, e4⟩, eout, ein, tout, tin⟩ :=
            ih hmid_dl hmid_il (by omega) heq2
          refine ⟨⟨by simpa [hmiddef] using e1, by simpa [hmiddef] using e2⟩,
                  ⟨by simp [hmiddef] at e3; simp [e3, hmiddef],
                   by simp [hmiddef] at e4; simp [e4, hmiddef]⟩, ?_, ?_, ?_, ?_⟩
          · intro k hk
            have h1 : h2.dataSectors.getD k 0 = hmid.dataSectors.getD k 0 :=
              eout k (by omega)
            rw [h1]
            simp only [hmiddef]
            exact getD_set_ne _ _ _ _ _ (by omega)
          · intro j hj
            cases j with
            | zero =>
              have h1 : h2.dataSectors.getD (cfg.numDirect + i + 0) 0 =
                  hmid.dataSectors.getD (cfg.numDirect + i) 0 := by
                rw [Nat.add_zero]
                exact eout (cfg.numDirect + i) (by omega)
              rw [h1]
              simp only [hmiddef]
              rw [getD_set_self _ _ _ _ (by omega)]
              omega
            | succ m =>
              have := ein m (by omega)
              have harith : cfg.numDirect + (i + 1) + m = cfg.numDirect + i + (m + 1) := by omega
              rw [harith] at this
              exact this
          · intro j hj
            have h1 : h2.indirectTable.getD j none = hmid.indirectTable.getD j none :=
              tout j (by omega)
            rw [h1]
            simp only [hmiddef]
            exact getD_set_ne _ _ _ _ _ (by omega)
          · intro j hj
            cases j with
            | zero =>
              have h1 : h2.indirectTable.getD (i + 0) none =
                  hmid.indirectTable.getD i none := by
                rw [Nat.add_zero]
                exact tout i (by omega)
              rw [h1]
              simp only [hmiddef]
              rw [getD_set_self _ _ _ _ (by omega)]
              simp
            | succ m =>
              have := tin m (by omega)
              have harith : i + 1 + m = i + (m + 1) := by omega
              rw [harith] at this
              exact this

theorem allocate_true_struct {cfg : FSConfig} {bm : List Bool} {fileSize : Nat}
    {h : MemHeader} {bm2 : List Bool}
    (heq : allocate cfg bm fileSize = some (true, h, bm2)) :
    h.numBytes = (fileSize : Int) ∧
    h.numSectors = ((allocNS cfg fileSize : Nat) : Int) ∧
    h.dataSectors.length = cfg.numDirect + cfg.numIndirect ∧
    h.indirectTable.length = cfg.numIndirect ∧
    allocK cfg fileSize ≤ cfg.numIndirect ∧
    (∀ j, j < allocK cfg fileSize →
      0 ≤ h.dataSectors.getD (cfg.numDirect + j) 0 ∧
      (h.indirectTable.getD j none).isSome) ∧
    (∀ j, allocK cfg fileSize ≤ j → j < cfg.numIndirect →
      h.dataSectors.getD (cfg.numDirect + j) 0 = -1 ∧
      h.indirectTable.getD j none = none) := by
  unfold allocate at heq
  set ns := divRoundUp fileSize cfg.sectorSize with hns
  by_cases hpre : numClear bm < ns
  · simp [hpre] at heq
  · simp only [if_neg hpre] at heq
    set sectorNeeds := if ns ≤ cfg.numDirect then ns else cfg.numDirect with hsn
    have hsnd : sectorNeeds ≤ cfg.numDirect := by
      rw [hsn]; split <;> omega
    rcases hseq : allocSeq (List.replicate (cfg.numDirect + cfg.numIndirect) (-1)) bm 0 sectorNeeds
      with _ | ⟨ds, bm1⟩
    · rw [show ({ mkFileHeader cfg with
          numBytes := (fileSize : Int), numSectors := ((ns : Nat) : Int) } : MemHeader).dataSectors
          = List.replicate (cfg.numDirect + cfg.numIndirect) (-1) from rfl, hseq] at heq
      simp at heq
    · rw [show ({ mkFileHeader cfg with
          numBytes := (fileSize : Int), numSectors := ((ns : Nat) : Int) } : MemHeader).dataSectors
          = List.replicate (cfg.numDirect + cfg.numIndirect) (-1) from rfl, hseq] at heq
      obtain ⟨hdsl, hout, hin⟩ := allocSeq_slots hseq
      rw [List.length_replicate] at hdsl
      have hoffK : allocOffset cfg fileSize = ns - sectorNeeds := by
        rw [allocOffset, allocNS, ← hns, ← hsn]
      have hindir : ∀ k, cfg.numDirect ≤ k →
          ds.getD k 0 = (List.replicate (cfg.numDirect + cfg.numIndirect) (-1 : Int)).getD k 0 := by
        intro k hk
        exact hout k (by omega)
      have hrepl : ∀ k, k < cfg.numDirect + cfg.numIndirect →
          (List.replicate (cfg.numDirect + cfg.numIndirect) (-1 : Int)).getD k 0 = -1 := by
        intro k hk
        rw [List.getD_eq_getElem _ _ (by simpa using hk)]
        simp
      by_cases hoff : 0 < ns - sectorNeeds
      · simp only [if_pos hoff] at heq
        set indexNeeds := divRoundUp (ns - sectorNeeds) cfg.numMaxSect with hidx
        set K := if indexNeeds ≤ cfg.numIndirect then indexNeeds else cfg.numIndirect with hKdef
        have hKle : K ≤ cfg.numIndirect := by rw [hKdef]; split <;> omega
        have hKval : allocK cfg fileSize = K := by
          rw [allocK, hoffK, if_pos hoff, hKdef, hidx]
        obtain ⟨⟨e1, e2⟩, ⟨e3, e4⟩, eout, ein, tout, tin⟩ :=
          allocIndirLoop_struct (by simpa using hdsl) (by simp [mkFileHeader])
            (by omega) heq
        simp only at e1 e2 e3 e4 eout ein tout tin
        rw [hKval]
        refine ⟨by rw [e1], by rw [e2]; rfl, by rw [e3]; simpa using hdsl,
                by rw [e4]; simp [mkFileHeader], hKle, ?_, ?_⟩
        · intro j hj
          constructor
          · have := ein j hj
            simpa using this
          · have := tin j hj
            simpa using this
        · intro j hjK hjI
          constructor
          · have h1 := eout (cfg.numDirect + j) (by omega)
            simp only at h1
            rw [h1, hindir _ (by omega), hrepl _ (by omega)]
          · have h1 := tout j (by omega)
            simp only at h1
            rw [h1]
            simp [mkFileHeader]
      · simp only [if_neg hoff] at heq
        simp only [Option.some.injEq, Prod.mk.injEq] at heq
        obtain ⟨-, hh, hbm⟩ := heq
        have hKval : allocK cfg fileSize = 0 := by
          rw [allocK, hoffK, if_neg hoff]
        rw [hKval]
        refine ⟨by rw [← hh], by rw [← hh]; rfl, by rw [← hh]; simpa using hdsl,
                by rw [← hh]; simp [mkFileHeader], by omega,
                fun j hj => by omega, ?_⟩
        intro j hjK hjI
        rw [← hh]
        simp only
        constructor
        · rw [hindir _ (by omega), hrepl _ (by omega)]
        · simp [mkFileHeader]

theorem le_divRoundUp_mul {a w : Nat} (hw : 0 < w) : a ≤ divRoundUp a w * w := by
  rcases Nat.eq_zero_or_pos a with rfl | ha
  · simp
  · rw [divRoundUp]
    have h1 : (a + w - 1) = (a - 1) + w := by omega
    rw [h1, Nat.add_div_right _ hw, Nat.succ_mul]
    have h2 := Nat.div_add_mod (a - 1) w
    have h3 := Nat.mod_lt (a - 1) hw
    have h4 : w * ((a - 1) / w) = (a - 1) / w * w := Nat.mul_comm ..
    omega

theorem allocate_true_numClear {cfg : FSConfig} {bm : List Bool} {fileSize : Nat}
    {h : MemHeader} {bm2 : List Bool}
    (hb : divRoundUp fileSize cfg.sectorSize ≤ cfg.numDirect + cfg.numIndirect * cfg.numMaxSect)
    (heq : allocate cfg bm fileSize = some (true, h, bm2)) :
    numClear bm = numClear bm2 + allocNS cfg fileSize + allocK cfg fileSize ∧
    bm2.length = bm.length := by
  unfold allocate at heq
  set ns := divRoundUp fileSize cfg.sectorSize with hns
  by_cases hpre : numClear bm < ns
  · simp [hpre] at heq
  · simp only [if_neg hpre] at heq
    set sectorNeeds := if ns ≤ cfg.numDirect then ns else cfg.numDirect with hsn
    have hsnd : sectorNeeds ≤ cfg.numDirect := by rw [hsn]; split <;> omega
    have hsnns : sectorNeeds ≤ ns := by rw [hsn]; split <;> omega
    rcases hseq : allocSeq (List.replicate (cfg.numDirect + cfg.numIndirect) (-1)) bm 0 sectorNeeds
      with _ | ⟨ds, bm1⟩
    · rw [show ({ mkFileHeader cfg with
          numBytes := (fileSize : Int), numSectors := ((ns : Nat) : Int) } : MemHeader).dataSectors
          = List.replicate (cfg.numDirect + cfg.numIndirect) (-1) from rfl, hseq] at heq
      simp at heq
    · rw [show ({ mkFileHeader cfg with
          numBytes := (fileSize : Int), numSectors := ((ns : Nat) : Int) } : MemHeader).dataSectors
          = List.replicate (cfg.numDirect + cfg.numIndirect) (-1) from rfl, hseq] at heq
      obtain ⟨hn1, hl1⟩ := allocSeq_numClear hseq
      have hoffK : allocOffset cfg fileSize = ns - sectorNeeds := by
        rw [allocOffset, allocNS, ← hns, ← hsn]
      have hNSval : allocNS cfg fileSize = ns := rfl
      by_cases hoff : 0 < ns - sectorNeeds
      · simp only [if_pos hoff] at heq
        set indexNeeds := divRoundUp (ns - sectorNeeds) cfg.numMaxSect with hidx
        set K := if indexNeeds ≤ cfg.numIndirect then indexNeeds else cfg.numIndirect with hKdef
        have hKval : allocK cfg fileSize = K := by
          rw [allocK, hoffK, if_pos hoff, hKdef, hidx]
        have hsn3 : sectorNeeds = ns ∨ sectorNeeds = cfg.numDirect := by
          rw [hsn]; split
          · exact Or.inl rfl
          · exact Or.inr rfl
        have hsneq : sectorNeeds = cfg.numDirect := by
          rcases hsn3 with hcase | hcase
          · omega
          · exact hcase
        have hoffle : ns - sectorNeeds ≤ cfg.numIndirect * cfg.numMaxSect := by
          rw [hsneq]; omega
        have hw : 0 < cfg.numMaxSect := by
          by_contra hw0
          have : cfg.numMaxSect = 0 := by omega
          rw [this, Nat.mul_zero] at hoffle
          omega
        have hbound : ns - sectorNeeds ≤ K * cfg.numMaxSect := by
          rw [hKdef]
          split
          · exact le_divRoundUp_mul hw
          · exact hoffle
        obtain ⟨hn2, hl2⟩ := allocIndirLoop_numClear hbound heq
        have hNSv : allocNS cfg fileSize = ns := hNSval
        refine ⟨by omega, by rw [hl2, hl1]⟩
      · simp only [if_neg hoff] at heq
        simp only [Option.some.injEq, Prod.mk.injEq] at heq
        obtain ⟨-, -, hbm⟩ := heq
        have hKval : allocK cfg fileSize = 0 := by
          rw [allocK, hoffK, if_neg hoff]
        subst hbm
        have hNSv : allocNS cfg fileSize = ns := hNSval
        refine ⟨by omega, by rw [hl1]⟩

theorem filter_range_length {p : Nat → Bool} {n : Nat} :
    ∀ {K : Nat}, K ≤ n → (∀ i, i < n → (p i = true ↔ i < K)) →
    ((List.range n).filter p).length = K := by
  induction n with
  | zero =>
    intro K hK _
    simp
    omega
  | succ n ih =>
    intro K hK h
    rw [List.range_succ, List.filter_append, List.length_append]
    by_cases hKn : K ≤ n
    · have hpn : p n = false := by
        rcases hpn' : p n with _ | _
        · rfl
        · have := (h n (by omega)).mp hpn'
          omega
      rw [ih hKn (fun i hi => h i (by omega))]
      simp [hpn]
    · have hKeq : K = n + 1 := by omega
      subst hKeq
      have hpn : p n = true := (h n (by omega)).mpr (by omega)
      rw [ih (Nat.le_refl n) (fun i hi => ⟨fun _ => hi, fun _ => (h i (by omega)).mpr (by omega)⟩)]
      simp [hpn]

theorem allocate_countIndirect {cfg : FSConfig} {bm : List Bool} {fileSize : Nat}
    {h : MemHeader} {bm2 : List Bool}
    (heq : allocate cfg bm fileSize = some (true, h, bm2)) :
    countIndirect cfg h = allocK cfg fileSize := by
  obtain ⟨-, -, -, -, hKle, hfill, hempty⟩ := allocate_true_struct heq
  rw [countIndirect]
  apply filter_range_length hKle
  intro i hi
  rw [decide_eq_true_eq]
  constructor
  · intro hp
    by_contra hiK
    exact hp (hempty i (by omega) hi).1
  · intro hiK
    have := (hfill i hiK).1
    omega

/-- C1: FileHeader::Deallocate must clear the bit of every sector the
header references.  The code cannot do this for any header with a
loaded indirect child: the inner loop for (j = 0; j < numSectors; j)
never increments j and tests/clears dataSectors[i] with the outer
index, so on the concrete header hdrA (built by Allocate itself for a
two-sector file under cfgA) the run aborts (none) with sectors 0, 1
and 2 still marked in the map; the claimed postcondition is never
established. -/
theorem deallocate_aborts_on_indirect_header :
    allocate cfgA (List.replicate 6 false) 2 = some (true, hdrA, bmA) ∧
    deallocate cfgA hdrA bmA = none := by decide

/-- C3: ByteToSector translates offset / SectorSize below NumDirect to
the direct slot, and otherwise to entry (p - NumDirect) % NumMaxSect of
indirect header (p - NumDirect) / NumMaxSect, exactly as the claim
states (for offsets inside the file, with the referenced indirect
header loaded). -/
theorem byteToSector_translation (cfg : FSConfig) (h : MemHeader) (offset : Nat)
    (_hoff : (offset : Int) < h.numBytes) :
    (offset / cfg.sectorSize < cfg.numDirect →
      byteToSector cfg h offset = some (h.dataSectors.getD (offset / cfg.sectorSize) 0)) ∧
    (cfg.numDirect ≤ offset / cfg.sectorSize →
      ∀ ch, h.indirectTable.getD
          ((offset / cfg.sectorSize - cfg.numDirect) / cfg.numMaxSect) none = some ch →
      byteToSector cfg h offset =
        some (ch.dataSectors.getD
          ((offset / cfg.sectorSize - cfg.numDirect) % cfg.numMaxSect) 0)) := by
  constructor
  · intro hlt
    simp [byteToSector, hlt]
  · intro hge ch hch
    rw [byteToSector]
    simp only [if_neg (by omega : ¬ offset / cfg.sectorSize < cfg.numDirect), hch]

/-- Witness for C3 at a concrete input: under cfgA, offset 1 of the
two-byte file hdrA lies in the indirect region and resolves to data
sector 2, the first direct sector of indirect header 0. -/
theorem byteToSector_translation_witness :
    byteToSector cfgA hdrA 1 = some 2 :=
  (byteToSector_translation cfgA hdrA 1 (by decide)).2 (by decide) chA (by decide)

/-- Counterexample for C4: under cfgA a request of 4 bytes exceeds the
maximum representable size (1 direct + 1 indirect * 2 = 3 sectors), yet
Allocate succeeds, consuming only 4 sectors (3 data + 1 indirect
header) while the claim demands ceil(4/1) + 1 = 5.  So success does not
imply the claimed decrement. -/
theorem allocate_decrement_counterexample :
    allocate cfgA (List.replicate 6 false) 4 =
      some (true,
        { numBytes := 4, numSectors := 4, dataSectors := [0, 1],
          indirectTable := [some { numBytes := 2, numSectors := 2, dataSectors := [2, 3] }] },
        [true, true, true, true, false, false]) ∧
    numClear (List.replicate 6 false) = numClear [true, true, true, true, false, false] + 4 ∧
    divRoundUp 4 cfgA.sectorSize + countIndirect cfgA
      { numBytes := 4, numSectors := 4, dataSectors := [0, 1],
        indirectTable := [some { numBytes := 2, numSectors := 2, dataSectors := [2, 3] }] } = 5 ∧
    (4 : Nat) ≠ 5 := by decide

/-- C4 (amended): for any request whose sector count fits the
representable maximum NumDirect + NumIndirect * NumMaxSect, a
successful Allocate decreases NumClear by exactly
ceil(fileSize / SectorSize) plus the number of indirect-header slots
consumed. -/
theorem allocate_numClear_exact (cfg : FSConfig) (bm : List Bool) (fileSize : Nat)
    (h : MemHeader) (bm2 : List Bool)
    (hb : divRoundUp fileSize cfg.sectorSize ≤ cfg.numDirect + cfg.numIndirect * cfg.numMaxSect)
    (heq : allocate cfg bm fileSize = some (true, h, bm2)) :
    numClear bm = numClear bm2 + divRoundUp fileSize cfg.sectorSize + countIndirect cfg h := by
  have h1 := (allocate_true_numClear hb heq).1
  have h2 := allocate_countIndirect heq
  have h3 : allocNS cfg fileSize = divRoundUp fileSize cfg.sectorSize := rfl
  omega

/-- Witness for the amended C4: a maximal 3-byte file under cfgA
consumes 3 data sectors plus 1 indirect header, decreasing NumClear
from 6 to 2. -/
theorem allocate_numClear_exact_witness :
    numClear (List.replicate 6 false) =
      numClear [true, true, true, true, false, false] +
        divRoundUp 3 cfgA.sectorSize + countIndirect cfgA hdrB :=
  allocate_numClear_exact cfgA (List.replicate 6 false) 3 hdrB
    [true, true, true, true, false, false] (by decide) (by decide)

/-- C9: a successful Allocate fills the indirect-header slots
contiguously from the left: if a slot holds -1, every later slot in
the indirect region also holds -1 (so FetchFrom, which stops loading
children at the first -1 slot, loses nothing). -/
theorem allocate_indirect_slots_contiguous (cfg : FSConfig) (bm : List Bool)
    (fileSize : Nat) (h : MemHeader) (bm2 : List Bool)
    (heq : allocate cfg bm fileSize = some (true, h, bm2)) :
    ∀ i j, i ≤ j → j < cfg.numIndirect →
      h.dataSectors.getD (cfg.numDirect + i) 0 = -1 →
      h.dataSectors.getD (cfg.numDirect + j) 0 = -1 := by
  obtain ⟨-, -, -, -, hKle, hfill, hempty⟩ := allocate_true_struct heq
  intro i j hij hj hi
  by_cases hiK : i < allocK cfg fileSize
  · have := (hfill i hiK).1
    omega
  · exact (hempty j (by omega) hj).1

/-- Witness for C9 at a concrete input: the direct-only header hdrD
has its single indirect slot equal to -1, and contiguity applied at
i = j = 0 confirms it. -/
theorem allocate_indirect_slots_contiguous_witness :
    hdrD.dataSectors.getD (cfgA.numDirect + 0) 0 = -1 :=
  allocate_indirect_slots_contiguous cfgA (List.replicate 6 false) 1 hdrD
    [true, false, false, false, false, false] (by decide) 0 0 (Nat.le_refl 0)
    (by decide) (by decide)

/-! ## Lemmas for the leading-slash discipline (C10) -/

theorem char_toNat_inj {a b : Char} (h : a.toNat = b.toNat) : a = b := by
  rw [← Char.ofNat_toNat a, ← Char.ofNat_toNat b, h]

theorem strncmp_slash_ne {a b : List Char} {n : Nat} (hn : 1 ≤ n)
    (ha : a.head? = some '/') (hb : b.head? ≠ some '/') : strncmp a b n ≠ 0 := by
  cases a with
  | nil => simp at ha
  | cons c cs =>
    simp at ha
    subst ha
    cases n with
    | zero => omega
    | succ m =>
      cases b with
      | nil =>
        simp [strncmp]
      | cons d ds =>
        have hd : d ≠ '/' := by
          intro hcontra
          exact hb (by simp [hcontra])
        rw [strncmp]
        rw [if_neg (by intro hcontra; exact hd hcontra.symm)]
        intro hcontra
        have : ('/').toNat = d.toNat := by omega
        exact hd (char_toNat_inj this).symm

theorem lastSlash_spec {abs : List Char} {m : Nat} (h : lastSlash abs = some m) :
    m < abs.length ∧ abs.get? m = some '/' := by
  unfold lastSlash at h
  have hmem := List.mem_of_mem_getLast? h
  rw [List.mem_filter] at hmem
  obtain ⟨hrange, hpred⟩ := hmem
  rw [List.mem_range] at hrange
  exact ⟨hrange, by simpa using hpred⟩

theorem head?_take_pos {l : List Char} {n : Nat} (hn : 0 < n) :
    (l.take n).head? = l.head? := by
  cases l with
  | nil => simp
  | cons c cs =>
    cases n with
    | zero => omega
    | succ m => simp

/-- C10: the leaf ExtractBasePath hands to Create keeps its leading
'/', the entry Add stores for it keeps that leading '/' after strncpy
truncation, every component SearchPath extracts (leaf or intermediate)
starting at a '/' keeps that '/', and Find with a bare name (not
starting with '/') can never match a table whose in-use names all
start with '/'. -/
theorem facade_names_keep_leading_slash (cfg : FSConfig) (hn : 0 < cfg.fileNameMaxLen)
    (abs base leaf : List Char)
    (hext : extractBasePath abs = some (base, leaf)) :
    leaf.head? = some '/' ∧
    (∀ tbl sec d tbl', dirAdd cfg tbl leaf sec d = (true, tbl') →
      ∃ i, i < tbl.length ∧
        tbl'.getD i emptyEntry =
          { inUse := true, name := leaf.take cfg.fileNameMaxLen, sector := sec, isDir := d } ∧
        (leaf.take cfg.fileNameMaxLen).head? = some '/') ∧
    (∀ name offset, name.get? offset = some '/' →
      (pathComponentLeaf name offset).head? = some '/' ∧
      ∀ i, 0 < i → (pathComponentMid name offset i).head? = some '/') ∧
    (∀ tbl bare, bare.head? ≠ some '/' →
      (∀ e, e ∈ tbl → e.inUse = true → e.name.head? = some '/') →
      dirFind cfg tbl bare = -1) := by
  have hleaf : leaf.head? = some '/' := by
    unfold extractBasePath at hext
    cases hls : lastSlash abs with
    | none => rw [hls] at hext; simp at hext
    | some m =>
      rw [hls] at hext
      simp only [Option.some.injEq, Prod.mk.injEq] at hext
      obtain ⟨-, hdrop⟩ := hext
      obtain ⟨hm, hsl⟩ := lastSlash_spec hls
      rw [← hdrop, List.head?_drop]
      rw [← List.get?_eq_getElem?]
      exact hsl
  refine ⟨hleaf, ?_, ?_, ?_⟩
  · intro tbl sec d tbl' hadd
    unfold dirAdd at hadd
    by_cases hdup : dirFindIndex cfg tbl leaf ≠ -1
    · simp [hdup] at hadd
    · rw [if_neg hdup] at hadd
      cases hidx : tbl.findIdx? (fun e => !e.inUse) with
      | none => rw [hidx] at hadd; simp at hadd
      | some i =>
        rw [hidx] at hadd
        simp only [Prod.mk.injEq] at hadd
        obtain ⟨-, htbl⟩ := hadd
        have hlt : i < tbl.length := (List.findIdx?_eq_some_iff_findIdx_eq.mp hidx).1
        refine ⟨i, hlt, ?_, ?_⟩
        · rw [← htbl]
          exact getD_set_self _ _ _ _ hlt
        · rw [head?_take_pos hn]
          exact hleaf
  · intro name offset hsl
    constructor
    · rw [pathComponentLeaf, List.head?_drop, ← List.get?_eq_getElem?]
      exact hsl
    · intro i hi
      rw [pathComponentMid, head?_take_pos hi, List.head?_drop, ← List.get?_eq_getElem?]
      exact hsl
  · intro tbl bare hbare hall
    rw [dirFind]
    cases hfind : tbl.find? (dirMatch cfg bare) with
    | none => rfl
    | some e =>
      exfalso
      have hmem := List.mem_of_find?_eq_some hfind
      have hpred := List.find?_some hfind
      rw [dirMatch, Bool.and_eq_true] at hpred
      obtain ⟨huse, hcmp⟩ := hpred
      have hslash := hall e hmem huse
      have hne := strncmp_slash_ne hn hslash hbare
      rw [beq_iff_eq] at hcmp
      exact hne hcmp

/-- Witness for C10 at a concrete input: for the path "/a" the leaf is
"/a" (leading '/'), and a bare name "a" cannot match a table whose
stored names keep the '/'. -/
theorem facade_names_keep_leading_slash_witness :
    (['/'] ++ ['a']).head? = some '/' ∧
    dirFind cfgA [{ inUse := true, name := ['/', 'a'], sector := 2, isDir := false }] ['a'] = -1 := by
  have h := facade_names_keep_leading_slash cfgA (by decide) ['/', 'a'] [] ['/', 'a'] (by decide)
  refine ⟨h.1, ?_⟩
  exact h.2.2.2 [{ inUse := true, name := ['/', 'a'], sector := 2, isDir := false }] ['a']
    (by decide) (by intro e he hu; simp at he; rw [he]; decide)

/-- C8: for an identifier outside 1..MAX_OPEN_FILES (the table holds
nothing outside that range, as only OpenFileForId fills it) or whose
slot holds no open file, CloseFileId returns 0 and leaves the table
unchanged. -/
theorem closeFileId_invalid (maxOpen : Nat) (tbl : Int → Option Nat) (id : Int)
    (hwf : ∀ i : Int, i < 1 ∨ (maxOpen : Int) < i → tbl i = none)
    (hid : id < 1 ∨ (maxOpen : Int) < id ∨ tbl id = none) :
    closeFileId tbl id = (0, tbl) := by
  have hnone : tbl id = none := by
    rcases hid with h | h | h
    · exact hwf id (Or.inl h)
    · exact hwf id (Or.inr h)
    · exact h
  rw [closeFileId, hnone]

/-- Witness for C8 at a concrete input: closing identifier 0 on an
empty table returns 0 and changes nothing. -/
theorem closeFileId_invalid_witness :
    closeFileId (fun _ => none) 0 = (0, fun _ => none) :=
  closeFileId_invalid 2 (fun _ => none) 0 (fun _ _ => rfl) (Or.inl (by decide))

/-- C5: whenever Create fails (base path unresolved, duplicate leaf,
no free header sector, directory full, or insufficient space), it
returns 0 and the on-disk state is identical to the state before the
call: every failure path returns before any WriteBack. -/
theorem create_failure_preserves_disk (cfg : FSConfig) (d : Disk) (name : List Char)
    (initialSize : Nat) (isDir : Bool) (r : Int) (d2 : Disk)
    (heq : create cfg d name initialSize isDir = some (r, d2)) (hr : r ≠ 1) :
    r = 0 ∧ d2 = d := by
  unfold create at heq
  repeat' split at heq
  all_goals simp_all

/-- C6: Remove returns false, changing nothing on disk, when the
resolved leaf is absent from the base directory or resolves to
ROOT_DIR_SECTOR (sector 1): the check comes before any Deallocate,
Clear or WriteBack. -/
theorem remove_missing_or_root_noop (cfg : FSConfig) (fuel : Nat) (d : Disk)
    (name : List Char) (recur : Bool) (baseTbl0 : DirTable) (basePath filename : List Char)
    (bsec : Int) (tbl : DirTable)
    (h1 : readDir cfg d 1 = some baseTbl0)
    (h2 : extractBasePath name = some (basePath, filename))
    (h3 : searchPath cfg d baseTbl0 basePath 0 = some bsec)
    (h4 : bsec ≠ -1)
    (h5 : readDir cfg d bsec = some tbl)
    (h6 : dirFind cfg tbl filename = -1 ∨ dirFind cfg tbl filename = 1) :
    remove cfg fuel d name recur = some (false, d) := by
  unfold remove
  simp only [h1, h2, h3, h5, if_neg h4, if_pos h6]

theorem format_cfgV : format cfgV = some dF := by decide

/-- Witness for C5 at a concrete input: the second create of "/a"
fails with NameExists, returns 0, and the on-disk state (free map
included) is exactly the state before the call. -/
theorem create_failure_preserves_disk_witness :
    create cfgV dV1 (['/'] ++ ['a']) 5 false = some (0, dV1) ∧ (0 : Int) = 0 ∧ dV1 = dV1 :=
  ⟨by decide,
   create_failure_preserves_disk cfgV dV1 (['/'] ++ ['a']) 5 false 0 dV1 (by decide) (by decide)⟩

/-- Witness for C6 at a concrete input: removing "/a" on a freshly
formatted volume (leaf absent from the empty root) returns false and
leaves the disk untouched. -/
theorem remove_missing_or_root_noop_witness :
    remove cfgV 1 dF (['/'] ++ ['a']) false = some (false, dF) :=
  remove_missing_or_root_noop cfgV 1 dF (['/'] ++ ['a']) false
    (List.replicate 4 emptyEntry) [] ['/', 'a'] 1 (List.replicate 4 emptyEntry)
    (by decide) (by decide) (by decide) (by decide) (by decide) (Or.inl (by decide))

theorem bmSub_refl (bm : List Bool) : bmSub bm bm := ⟨rfl, fun _ _ h => h⟩

theorem bmSub_trans {a b c : List Bool} (h1 : bmSub a b) (h2 : bmSub b c) : bmSub a c := by
  obtain ⟨l1, m1⟩ := h1
  obtain ⟨l2, m2⟩ := h2
  exact ⟨l2.trans l1, fun u hu hset => m2 u (by omega) (m1 u hu hset)⟩

theorem bmSub_set_true {bm : List Bool} {i : Nat} : bmSub bm (bm.set i true) := by
  refine ⟨by simp, fun u hu hset => ?_⟩
  by_cases hui : i = u
  · subst hui
    rw [getD_set_self _ _ _ _ hu]
  · rw [getD_set_ne _ _ _ _ _ hui]
    exact hset

theorem findAndSet_bmSub {bm : List Bool} {s : Int} {bm1 : List Bool}
    (h : findAndSet bm = (s, bm1)) (hs : 0 ≤ s) : bmSub bm bm1 := by
  obtain ⟨-, -, hset, -, -⟩ := findAndSet_nonneg h hs
  rw [hset]
  exact bmSub_set_true

theorem allocSeq_bmSub {cnt : Nat} : ∀ {ds bm start ds2 bm2},
    allocSeq ds bm start cnt = some (ds2, bm2) → bmSub bm bm2 := by
  induction cnt with
  | zero =>
    intro ds bm start ds2 bm2 h
    simp [allocSeq] at h
    rw [h.2]
    exact bmSub_refl bm2
  | succ n ih =>
    intro ds bm start ds2 bm2 h
    simp only [allocSeq] at h
    rcases hfs : findAndSet bm with ⟨s, bm1⟩
    rw [hfs] at h
    by_cases hs : s < 0
    · simp [hs] at h
    · simp only [if_neg hs] at h
      exact bmSub_trans (findAndSet_bmSub hfs (by omega)) (ih h)

theorem allocateIndirect_bmSub {cfg : FSConfig} {bm : List Bool} {k : Nat}
    {ok : Bool} {ch : HeaderRec} {bm2 : List Bool}
    (h : allocateIndirect cfg bm k = some (ok, ch, bm2)) : bmSub bm bm2 := by
  unfold allocateIndirect at h
  by_cases hpre : numClear bm < k
  · simp [hpre] at h
    rw [h.2.2]
    exact bmSub_refl bm2
  · simp only [if_neg hpre] at h
    rcases hseq : allocSeq (emptyRec cfg).dataSectors bm 0 k with _ | ⟨ds, bm1⟩
    · rw [hseq] at h; simp at h
    · rw [hseq] at h
      simp only [Option.some.injEq, Prod.mk.injEq] at h
      rw [← h.2.2]
      exact allocSeq_bmSub hseq

/-- The indirect-loop slots are drawn from bits clear at entry, end up
set, and are pairwise distinct. -/
theorem allocIndirLoop_fresh {cfg : FSConfig} {cnt : Nat} :
    ∀ {h : MemHeader} {bm : List Bool} {i offset : Nat} {h2 : MemHeader} {bm2 : List Bool},
    h.dataSectors.length = cfg.numDirect + cfg.numIndirect →
    h.indirectTable.length = cfg.numIndirect →
    i + cnt ≤ cfg.numIndirect →
    allocIndirLoop cfg h bm i offset cnt = some (true, h2, bm2) →
    bmSub bm bm2 ∧
    (∀ j, j < cnt →
      0 ≤ h2.dataSectors.getD (cfg.numDirect + i + j) 0 ∧
      (h2.dataSectors.getD (cfg.numDirect + i + j) 0).toNat < bm.length ∧
      bm.getD (h2.dataSectors.getD (cfg.numDirect + i + j) 0).toNat false = false ∧
      bm2.getD (h2.dataSectors.getD (cfg.numDirect + i + j) 0).toNat false = true) ∧
    (∀ j1 j2, j1 < j2 → j2 < cnt →
      h2.dataSectors.getD (cfg.numDirect + i + j1) 0 ≠
        h2.dataSectors.getD (cfg.numDirect + i + j2) 0) := by
  induction cnt with
  | zero =>
    intro h bm i offset h2 bm2 hdl hil hcnt heq
    simp [allocIndirLoop] at heq
    obtain ⟨rfl, rfl⟩ := heq
    exact ⟨bmSub_refl bm, fun j hj => by omega, fun j1 j2 h12 hj2 => by omega⟩
  | succ n ih =>
    intro h bm i offset h2 bm2 hdl hil hcnt heq
    simp only [allocIndirLoop] at heq
    rcases hfs : findAndSet bm with ⟨s, bm1⟩
    rw [hfs] at heq
    by_cases hs : s < 0
    · simp [hs] at heq
    · simp only [if_neg hs] at heq
      rcases hai : allocateIndirect cfg bm1 (min cfg.numMaxSect offset) with _ | ⟨ok, child, bm1'⟩
      · rw [hai] at heq; simp at heq
      · rw [hai] at heq
        cases ok with
        | false => simp at heq
        | true =>
          simp only [if_pos rfl] at heq
          obtain ⟨hlt, hclear, hset, -, hlen1⟩ := findAndSet_nonneg hfs (by omega)
          have hsubChild : bmSub bm1 bm1' := allocateIndirect_bmSub hai
          have hmidlen : (h.dataSectors.set (cfg.numDirect + i) s).length =
              cfg.numDirect + cfg.numIndirect := by simp [hdl]
          have hmidil : (h.indirectTable.set i (some child)).length = cfg.numIndirect := by
            simp [hil]
          obtain ⟨ihsub, ihfresh, ihdist⟩ := ih hmidlen hmidil (by omega) heq
          obtain ⟨⟨-, -⟩, ⟨e3, e4⟩, eout, -, -, -⟩ :=
            allocIndirLoop_struct hmidlen hmidil (by omega) heq
          have hslot0 : h2.dataSectors.getD (cfg.numDirect + i) 0 = s := by
            have h1 := eout (cfg.numDirect + i) (by omega)
            simp only at h1
            rw [h1, getD_set_self _ _ _ _ (by omega)]
          have hsub01 : bmSub bm bm1' := bmSub_trans (by rw [hset]; exact bmSub_set_true) hsubChild
          have hsubAll : bmSub bm bm2 := bmSub_trans hsub01 ihsub
          have hs_in_bm1 : bm1.getD s.toNat false = true := by
            rw [hset, getD_set_self _ _ _ _ hlt]
          have hs_in_bm1' : bm1'.getD s.toNat false = true := by
            refine hsubChild.2 s.toNat (by omega) hs_in_bm1
          have hs_in_bm2 : bm2.getD s.toNat false = true :=
            ihsub.2 s.toNat (by rw [hsubChild.1, hset]; simpa using hlt) hs_in_bm1'
          refine ⟨hsubAll, ?_, ?_⟩
          · intro j hj
            cases j with
            | zero =>
              rw [Nat.add_zero, hslot0]
              exact ⟨by omega, hlt, hclear, hs_in_bm2⟩
            | succ m =>
              have harith : cfg.numDirect + (i + 1) + m = cfg.numDirect + i + (m + 1) := by omega
              obtain ⟨f1, f2, f3, f4⟩ := ihfresh m (by omega)
              rw [harith] at f1 f2 f3 f4
              have hlen01 : bm1'.length = bm.length := by rw [hsubChild.1, hset]; simp
              refine ⟨f1, by omega, ?_, f4⟩
              by_contra hcontra
              have : bm.getD (h2.dataSectors.getD (cfg.numDirect + i + (m + 1)) 0).toNat false = true := by
                cases hcase : bm.getD (h2.dataSectors.getD (cfg.numDirect + i + (m + 1)) 0).toNat false
                · exact absurd hcase hcontra
                · rfl
              have := hsub01.2 _ (by omega) this
              rw [f3] at this
              exact Bool.false_ne_true this
          · intro j1 j2 h12 hj2
            cases j1 with
            | zero =>
              rw [Nat.add_zero, hslot0]
              cases j2 with
              | zero => omega
              | succ m =>
                have harith : cfg.numDirect + (i + 1) + m = cfg.numDirect + i + (m + 1) := by omega
                obtain ⟨f1, f2, f3, f4⟩ := ihfresh m (by omega)
                rw [harith] at f1 f2 f3
                intro hcontra
                rw [← hcontra] at f3
                rw [hs_in_bm1'] at f3
                simp at f3
            | succ m1 =>
              cases j2 with
              | zero => omega
              | succ m2 =>
                have ha1 : cfg.numDirect + (i + 1) + m1 = cfg.numDirect + i + (m1 + 1) := by omega
                have ha2 : cfg.numDirect + (i + 1) + m2 = cfg.numDirect + i + (m2 + 1) := by omega
                have := ihdist m1 m2 (by omega) (by omega)
                rw [ha1, ha2] at this
                exact this

theorem allocate_fresh {cfg : FSConfig} {bm : List Bool} {fileSize : Nat}
    {h : MemHeader} {bm2 : List Bool}
    (heq : allocate cfg bm fileSize = some (true, h, bm2)) :
    (∀ j, j < allocK cfg fileSize →
      (h.dataSectors.getD (cfg.numDirect + j) 0).toNat < bm.length) ∧
    (∀ j1 j2, j1 < j2 → j2 < allocK cfg fileSize →
      h.dataSectors.getD (cfg.numDirect + j1) 0 ≠
        h.dataSectors.getD (cfg.numDirect + j2) 0) := by
  unfold allocate at heq
  set ns := divRoundUp fileSize cfg.sectorSize with hns
  by_cases hpre : numClear bm < ns
  · simp [hpre] at heq
  · simp only [if_neg hpre] at heq
    set sectorNeeds := if ns ≤ cfg.numDirect then ns else cfg.numDirect with hsn
    rcases hseq : allocSeq (List.replicate (cfg.numDirect + cfg.numIndirect) (-1)) bm 0 sectorNeeds
      with _ | ⟨ds, bm1⟩
    · rw [show ({ mkFileHeader cfg with
          numBytes := (fileSize : Int), numSectors := ((ns : Nat) : Int) } : MemHeader).dataSectors
          = List.replicate (cfg.numDirect + cfg.numIndirect) (-1) from rfl, hseq] at heq
      simp at heq
    · rw [show ({ mkFileHeader cfg with
          numBytes := (fileSize : Int), numSectors := ((ns : Nat) : Int) } : MemHeader).dataSectors
          = List.replicate (cfg.numDirect + cfg.numIndirect) (-1) from rfl, hseq] at heq
      obtain ⟨hdsl, -, -⟩ := allocSeq_slots hseq
      obtain ⟨-, hblen⟩ := allocSeq_numClear hseq
      rw [List.length_replicate] at hdsl
      have hoffK : allocOffset cfg fileSize = ns - sectorNeeds := by
        rw [allocOffset, allocNS, ← hns, ← hsn]
      by_cases hoff : 0 < ns - sectorNeeds
      · simp only [if_pos hoff] at heq
        set indexNeeds := divRoundUp (ns - sectorNeeds) cfg.numMaxSect with hidx
        set K := if indexNeeds ≤ cfg.numIndirect then indexNeeds else cfg.numIndirect with hKdef
        have hKle : K ≤ cfg.numIndirect := by rw [hKdef]; split <;> omega
        have hKval : allocK cfg fileSize = K := by
          rw [allocK, hoffK, if_pos hoff, hKdef, hidx]
        obtain ⟨-, hfresh, hdist⟩ :=
          allocIndirLoop_fresh (by simpa using hdsl) (by simp [mkFileHeader]) (by omega) heq
        rw [hKval]
        constructor
        · intro j hj
          obtain ⟨-, hb, -, -⟩ := hfresh j hj
          simp only [Nat.add_zero, Nat.zero_add] at hb
          rw [hblen] at hb
          simpa using hb
        · intro j1 j2 h12 hj2
          have := hdist j1 j2 h12 hj2
          simpa using this
      · simp only [if_neg hoff] at heq
        simp only [Option.some.injEq, Prod.mk.injEq] at heq
        have hKval : allocK cfg fileSize = 0 := by
          rw [allocK, hoffK, if_neg hoff]
        rw [hKval]
        exact ⟨fun j hj => by omega, fun j1 j2 h12 hj2 => by omega⟩

/-! ## Round-trip machinery (C7) -/

theorem diskRead_cons_self {d : Disk} {u : Nat} {v : SectorVal} :
    diskRead ((u, v) :: d) u = some v := by
  simp [diskRead]

theorem diskRead_cons_ne {d : Disk} {u w : Nat} {v : SectorVal} (h : u ≠ w) :
    diskRead ((u, v) :: d) w = diskRead d w := by
  simp [diskRead, List.find?_cons, beq_iff_eq, h]

theorem diskWrite_some {cfg : FSConfig} {d : Disk} {s : Int} {v : SectorVal}
    (h0 : 0 ≤ s) (h1 : s < cfg.numSectors) :
    diskWrite cfg d s v = some ((s.toNat, v) :: d) := by
  rw [diskWrite, if_pos ⟨h0, by exact_mod_cast h1⟩]

theorem writeChildren_spec {cfg : FSConfig} {h : MemHeader} {n : Nat} :
    ∀ (d : Disk) (i : Nat),
    (∀ j, i ≤ j → j < i + n → (h.indirectTable.getD j none).isSome →
      0 ≤ h.dataSectors.getD (cfg.numDirect + j) 0 ∧
      h.dataSectors.getD (cfg.numDirect + j) 0 < cfg.numSectors) →
    ∃ d1, writeChildren cfg h d i n = some d1 ∧
    (∀ u : Nat, (∀ j, i ≤ j → j < i + n → (h.indirectTable.getD j none).isSome →
        (h.dataSectors.getD (cfg.numDirect + j) 0).toNat ≠ u) →
      diskRead d1 u = diskRead d u) ∧
    (∀ j ch, i ≤ j → j < i + n → h.indirectTable.getD j none = some ch →
      (∀ j2, j < j2 → j2 < i + n → (h.indirectTable.getD j2 none).isSome →
        (h.dataSectors.getD (cfg.numDirect + j2) 0).toNat ≠
          (h.dataSectors.getD (cfg.numDirect + j) 0).toNat) →
      diskRead d1 (h.dataSectors.getD (cfg.numDirect + j) 0).toNat = some (.hdrv ch)) := by
  induction n with
  | zero =>
    intro d i hvalid
    refine ⟨d, by simp [writeChildren], fun u _ => rfl, fun j ch hij hji => by omega⟩
  | succ n ih =>
    intro d i hvalid
    have hvalid' := hvalid
    rcases hchild : h.indirectTable.getD i none with _ | ch0
    · have hstep : writeChildren cfg h d i (n + 1) = writeChildren cfg h d (i + 1) n := by
        simp only [writeChildren, hchild]
      rw [hstep]
      obtain ⟨d1, hw, hout, hin⟩ := ih d (i + 1) (fun j hj1 hj2 hs => hvalid j (by omega) (by omega) hs)
      refine ⟨d1, hw, ?_, ?_⟩
      · intro u hu
        exact hout u (fun j hj1 hj2 hs => hu j (by omega) (by omega) hs)
      · intro j ch hij hji hc hdist
        rcases Nat.eq_or_lt_of_le hij with rfl | hgt
        · rw [hchild] at hc; simp at hc
        · exact hin j ch (by omega) (by omega) hc (fun j2 h1 h2 hs => hdist j2 (by omega) (by omega) hs)
    · have hv := hvalid i (Nat.le_refl i) (by omega) (by rw [hchild]; rfl)
      have hwr : diskWrite cfg d (h.dataSectors.getD (cfg.numDirect + i) 0) (.hdrv ch0) =
          some (((h.dataSectors.getD (cfg.numDirect + i) 0).toNat, .hdrv ch0) :: d) :=
        diskWrite_some hv.1 hv.2
      have hstep : writeChildren cfg h d i (n + 1) =
          writeChildren cfg h (((h.dataSectors.getD (cfg.numDirect + i) 0).toNat,
            SectorVal.hdrv ch0) :: d) (i + 1) n := by
        simp only [writeChildren, hchild, hwr]
      rw [hstep]
      obtain ⟨d1, hw, hout, hin⟩ := ih (((h.dataSectors.getD (cfg.numDirect + i) 0).toNat,
          SectorVal.hdrv ch0) :: d) (i + 1)
        (fun j hj1 hj2 hs => hvalid j (by omega) (by omega) hs)
      refine ⟨d1, hw, ?_, ?_⟩
      · intro u hu
        rw [hout u (fun j hj1 hj2 hs => hu j (by omega) (by omega) hs)]
        exact diskRead_cons_ne (hu i (Nat.le_refl i) (by omega) (by rw [hchild]; rfl))
      · intro j ch hij hji hc hdist
        rcases Nat.eq_or_lt_of_le hij with rfl | hgt
        · rw [hchild] at hc
          simp only [Option.some.injEq] at hc
          subst hc
          rw [hout _ (fun j2 h1 h2 hs => hdist j2 (by omega) (by omega) hs)]
          exact diskRead_cons_self
        · rw [hin j ch (by omega) (by omega) hc
            (fun j2 h1 h2 hs => hdist j2 (by omega) (by omega) hs)]

theorem fetchChildren_spec (cfg : FSConfig) (d : Disk) (r : HeaderRec) (K : Nat)
    (chf : Nat → HeaderRec) (n : Nat) :
    ∀ (tb : List (Option HeaderRec)) (i : Nat),
    i + n ≤ cfg.numIndirect →
    tb.length = cfg.numIndirect →
    (∀ j, i ≤ j → j < i + n → j < K →
      0 ≤ r.dataSectors.getD (cfg.numDirect + j) 0 ∧
      diskReadI cfg d (r.dataSectors.getD (cfg.numDirect + j) 0) = some (.hdrv (chf j))) →
    (∀ j, i ≤ j → j < i + n → K ≤ j → r.dataSectors.getD (cfg.numDirect + j) 0 = -1) →
    ∃ tb', fetchChildren cfg d r tb i n = some tb' ∧ tb'.length = tb.length ∧
      (∀ j, j < i ∨ i + n ≤ j → tb'.getD j none = tb.getD j none) ∧
      (∀ j, i ≤ j → j < i + n →
        tb'.getD j none = if j < K then some (chf j) else tb.getD j none) := by
  induction n with
  | zero =>
    intro tb i hn htl hread hstop
    exact ⟨tb, by simp [fetchChildren], rfl, fun j _ => rfl, fun j h1 h2 => by omega⟩
  | succ n ih =>
    intro tb i hn htl hread hstop
    by_cases hiK : i < K
    · obtain ⟨hge, hrd⟩ := hread i (Nat.le_refl i) (by omega) hiK
      have hne : ¬ (r.dataSectors.getD (cfg.numDirect + i) 0 = -1) := by omega
      have hstep : fetchChildren cfg d r tb i (n + 1) =
          fetchChildren cfg d r (tb.set i (some (chf i))) (i + 1) n := by
        simp only [fetchChildren, if_neg hne, hrd]
      rw [hstep]
      obtain ⟨tb', hfc, hlen, hout, hin⟩ := ih (tb.set i (some (chf i))) (i + 1)
        (by omega) (by simpa using htl)
        (fun j h1 h2 h3 => hread j (by omega) (by omega) h3)
        (fun j h1 h2 h3 => hstop j (by omega) (by omega) h3)
      refine ⟨tb', hfc, by simpa using hlen, ?_, ?_⟩
      · intro j hj
        rw [hout j (by omega)]
        exact getD_set_ne _ _ _ _ _ (by omega)
      · intro j h1 h2
        rcases Nat.eq_or_lt_of_le h1 with rfl | hgt
        · rw [hout i (by omega), if_pos hiK]
          exact getD_set_self _ _ _ _ (by omega)
        · rw [hin j (by omega) (by omega)]
          by_cases hjK : j < K
          · rw [if_pos hjK, if_pos hjK]
          · rw [if_neg hjK, if_neg hjK]
            exact getD_set_ne _ _ _ _ _ (by omega)
    · have hm1 : r.dataSectors.getD (cfg.numDirect + i) 0 = -1 :=
        hstop i (Nat.le_refl i) (by omega) (by omega)
      have hstep : fetchChildren cfg d r tb i (n + 1) = some tb := by
        simp only [fetchChildren, if_pos hm1]
      exact ⟨tb, hstep, rfl, fun j _ => rfl, fun j h1 h2 => by
        rw [if_neg (by omega)]⟩

theorem slot_mem_refSectors {cfg : FSConfig} {h : MemHeader} {j : Nat}
    (hlen : cfg.numDirect + j < h.dataSectors.length)
    (hne : h.dataSectors.getD (cfg.numDirect + j) 0 ≠ -1) :
    h.dataSectors.getD (cfg.numDirect + j) 0 ∈ refSectors cfg h := by
  rw [refSectors, List.mem_append]
  left
  rw [List.mem_filter]
  constructor
  · rw [List.getD_eq_getElem _ _ hlen]
    exact List.getElem_mem hlen
  · simpa using hne

/-- Counterexample for C7: the claim quantifies over every sector s,
but writing the header back to a sector it itself references breaks
the round trip.  Under cfgA, the 2-byte header hdrA references sector
1 as its indirect-header slot; WriteBack(1) writes the top record to
sector 1 and then overwrites it with the child record, so FetchFrom(1)
reloads the child as the top header and ByteToSector(0) answers 2
instead of 0. -/
theorem writeback_fetch_roundtrip_counterexample :
    allocate cfgA (List.replicate 6 false) 2 = some (true, hdrA, bmA) ∧
    writeHeader cfgA [] 1 hdrA = some [(1, .hdrv chA), (1, .hdrv hdrA.toRec)] ∧
    fetchHeader cfgA [(1, .hdrv chA), (1, .hdrv hdrA.toRec)] 1 = some hdrX ∧
    byteToSector cfgA hdrX 0 = some 2 ∧
    byteToSector cfgA hdrA 0 = some 0 ∧
    (0 : Nat) < 2 ∧ ((2 : Int) ≠ 0) := by decide

/-- C7 (amended): for every header h built by a successful Allocate
with length L and every valid sector s that is not among the sectors h
references, WriteBack(s) followed by FetchFrom(s) on a fresh header
reproduces a header whose ByteToSector agrees with h on every offset
in [0, L) (in fact the whole in-memory header is reproduced). -/
theorem writeBack_fetchFrom_roundtrip (cfg : FSConfig) (bm : List Bool) (L : Nat)
    (h : MemHeader) (bm2 : List Bool) (d : Disk) (s : Int)
    (hbml : bm.length ≤ cfg.numSectors)
    (halloc : allocate cfg bm L = some (true, h, bm2))
    (hs0 : 0 ≤ s) (hs1 : s < cfg.numSectors)
    (hsref : s ∉ refSectors cfg h) :
    ∃ d1 h2, writeHeader cfg d s h = some d1 ∧ fetchHeader cfg d1 s = some h2 ∧
      ∀ k, k < L → byteToSector cfg h2 k = byteToSector cfg h k := by
  obtain ⟨-, -, hdsl, hitl, hKle, hfill, hempty⟩ := allocate_true_struct halloc
  obtain ⟨hbound, hdist⟩ := allocate_fresh halloc
  have hpresK : ∀ j, j < cfg.numIndirect → (h.indirectTable.getD j none).isSome →
      j < allocK cfg L := by
    intro j hj hsome
    by_contra hge
    rw [(hempty j (by omega) hj).2] at hsome
    simp at hsome
  have hvalid : ∀ j, 0 ≤ j → j < 0 + cfg.numIndirect →
      (h.indirectTable.getD j none).isSome = true →
      0 ≤ h.dataSectors.getD (cfg.numDirect + j) 0 ∧
      h.dataSectors.getD (cfg.numDirect + j) 0 < (cfg.numSectors : Int) := by
    intro j h0 hj hsome
    have hjK := hpresK j (by omega) hsome
    have h1 := (hfill j hjK).1
    have h2 := hbound j hjK
    omega
  obtain ⟨d1, hw, hout, hin⟩ :=
    writeChildren_spec ((s.toNat, SectorVal.hdrv h.toRec) :: d) 0 hvalid
  have hwrite : writeHeader cfg d s h = some d1 := by
    rw [writeHeader, diskWrite_some hs0 hs1]
    exact hw
  have hslot_ne_s : ∀ j, j < cfg.numIndirect → (h.indirectTable.getD j none).isSome →
      (h.dataSectors.getD (cfg.numDirect + j) 0).toNat ≠ s.toNat := by
    intro j hj hsome
    have hjK := hpresK j hj hsome
    have hj0 := (hfill j hjK).1
    have hmem : h.dataSectors.getD (cfg.numDirect + j) 0 ∈ refSectors cfg h :=
      slot_mem_refSectors (by omega) (by omega)
    intro hcontra
    apply hsref
    have : h.dataSectors.getD (cfg.numDirect + j) 0 = s := by omega
    rwa [this] at hmem
  have hreadrec : diskReadI cfg d1 s = some (.hdrv h.toRec) := by
    rw [diskReadI, if_pos ⟨hs0, by exact_mod_cast hs1⟩]
    rw [hout s.toNat (fun j h0 hj hsome => hslot_ne_s j (by omega) hsome)]
    exact diskRead_cons_self
  have hreadchild : ∀ j, j < allocK cfg L →
      diskReadI cfg d1 (h.dataSectors.getD (cfg.numDirect + j) 0) =
        some (.hdrv ((h.indirectTable.getD j none).getD (emptyRec cfg))) := by
    intro j hjK
    have h0 := (hfill j hjK).1
    have h1 := hbound j hjK
    have hsome := (hfill j hjK).2
    have hch : h.indirectTable.getD j none =
        some ((h.indirectTable.getD j none).getD (emptyRec cfg)) := by
      cases hc : h.indirectTable.getD j none
      · rw [hc] at hsome; simp at hsome
      · rfl
    rw [diskReadI, if_pos ⟨h0, by omega⟩]
    apply hin j _ (by omega) (by omega) hch
    intro j2 hj2 hj2n hsome2
    have hj2K := hpresK j2 (by omega) hsome2
    have := hdist j j2 hj2 hj2K
    have g1 := (hfill j hjK).1
    have g2 := (hfill j2 hj2K).1
    omega
  obtain ⟨tb', hfc, htl, -, hinside⟩ :=
    fetchChildren_spec cfg d1 h.toRec (allocK cfg L)
      (fun j => (h.indirectTable.getD j none).getD (emptyRec cfg))
      cfg.numIndirect (List.replicate cfg.numIndirect none) 0 (by omega) (by simp)
      (fun j h0 hj hjK => ⟨(hfill j hjK).1, hreadchild j hjK⟩)
      (fun j h0 hj hjK => (hempty j hjK (by omega)).1)
  have htbeq : tb' = h.indirectTable := by
    apply List.ext_getElem (by simp at htl; omega)
    intro n h1 h2
    have hn : n < cfg.numIndirect := by simp at htl; omega
    have hgd := hinside n (by omega) (by omega)
    rw [List.getD_eq_getElem _ _ h1] at hgd
    rw [← List.getD_eq_getElem h.indirectTable none h2]
    rw [hgd]
    by_cases hnK : n < allocK cfg L
    · rw [if_pos hnK]
      have hsome := (hfill n hnK).2
      cases hc : h.indirectTable.getD n none
      · rw [hc] at hsome; simp at hsome
      · rfl
    · rw [if_neg hnK]
      rw [(hempty n (by omega) hn).2]
      rw [List.getD_eq_getElem _ _ (by simp; omega)]
      simp
  have hfetch : fetchHeader cfg d1 s = some h := by
    simp only [fetchHeader, hreadrec, hfc, htbeq]
    rcases h with ⟨nb, ns, ds, it⟩
    rfl
  exact ⟨d1, h, hwrite, hfetch, fun k _ => rfl⟩

/-- Witness for the amended C7 at a concrete input: writing hdrA back
to sector 3 (valid and unreferenced by hdrA) and refetching reproduces
its ByteToSector translation on [0, 2). -/
theorem writeBack_fetchFrom_roundtrip_witness :
    ∃ d1 h2, writeHeader cfgA [] 3 hdrA = some d1 ∧ fetchHeader cfgA d1 3 = some h2 ∧
      ∀ k, k < 2 → byteToSector cfgA h2 k = byteToSector cfgA hdrA k :=
  writeBack_fetchFrom_roundtrip cfgA (List.replicate 6 false) 2 hdrA bmA [] 3
    (by decide) (by decide) (by decide) (by decide) (by decide)

/-- On a disk whose root table has no in-use entry, only the root is
reachable and no entry is reachable. -/
theorem reachdir_empty_root {cfg : FSConfig} {d : Disk} {tbl : DirTable}
    (hroot : readDir cfg d 1 = some tbl)
    (hempty : ∀ e, e ∈ tbl → e.inUse = false) :
    (∀ s, ReachDir cfg d s → s = 1) ∧ (∀ e, ¬ EntryReachable cfg d e) := by
  have hstep : ∀ s, ReachDir cfg d s → s = 1 := by
    intro s hs
    induction hs with
    | root => rfl
    | step hr hrd hmem huse hdir ih =>
      subst ih
      rw [Nat.cast_one, hroot] at hrd
      simp only [Option.some.injEq] at hrd
      subst hrd
      have := hempty _ hmem
      rw [huse] at this
      exact absurd this (by simp)
  refine ⟨hstep, ?_⟩
  rintro e ⟨s, tbl2, hs, hrd, hmem, huse⟩
  have := hstep s hs
  subst this
  rw [Nat.cast_one, hroot] at hrd
  simp only [Option.some.injEq] at hrd
  subst hrd
  have := hempty _ hmem
  rw [huse] at this
  exact absurd this (by simp)

/-- Counterexample for C2: already the freshly formatted volume (the
empty operation sequence) violates the claimed equality.  Under cfgV,
format marks sectors 0..3; sector 2 is the data sector of the free-map
file, which is not reachable from the (empty) root directory and is
not sector 0 or 1, so the claimed union does not contain it while its
bit is set. -/
theorem bitmap_consistent_counterexample :
    format cfgV = some dF ∧ ¬ BitmapConsistent cfgV dF := by
  refine ⟨format_cfgV, ?_⟩
  rintro ⟨bm, hbm, hiff⟩
  have hbmval : bm = [true, true, true, true, false, false, false, false,
      false, false, false, false, false, false, false, false] := by
    have : readBitmap cfgV dF = some [true, true, true, true, false, false, false, false,
      false, false, false, false, false, false, false, false] := by decide
    rw [this] at hbm
    exact (Option.some.injEq .. ▸ hbm).symm
  subst hbmval
  have h2 := (hiff 2 (by decide)).mp (by decide)
  rcases h2 with h2 | h2 | ⟨e, hre, -⟩
  · omega
  · omega
  · have hroot : readDir cfgV dF 1 = some (List.replicate 4 emptyEntry) := by decide
    have hempty : ∀ e, e ∈ List.replicate 4 emptyEntry → e.inUse = false := by
      intro e he
      rw [List.eq_of_mem_replicate he]
      rfl
    exact (reachdir_empty_root hroot hempty).2 e hre

/-! ## Marked-set characterization of Allocate (direct-only files) -/

theorem getD_set_true_iff {bm : List Bool} {i u : Nat} (hi : i < bm.length) :
    ((bm.set i true).getD u false = true ↔ bm.getD u false = true ∨ u = i) := by
  by_cases hui : u = i
  · subst hui
    rw [getD_set_self _ _ _ _ hi]
    simp
  · rw [getD_set_ne _ _ _ _ _ (fun hcontra => hui hcontra.symm)]
    simp [hui]

theorem allocSeq_full {cnt : Nat} : ∀ {ds : List Int} {bm : List Bool} {start : Nat}
    {ds2 : List Int} {bm2 : List Bool},
    start + cnt ≤ ds.length →
    allocSeq ds bm start cnt = some (ds2, bm2) →
    (∀ u : Nat, (bm2.getD u false = true ↔
      bm.getD u false = true ∨ ∃ j, j < cnt ∧ ds2.getD (start + j) 0 = (u : Int))) ∧
    (∀ j, j < cnt → 0 ≤ ds2.getD (start + j) 0 ∧
      (ds2.getD (start + j) 0).toNat < bm.length ∧
      bm.getD (ds2.getD (start + j) 0).toNat false = false) := by
  induction cnt with
  | zero =>
    intro ds bm start ds2 bm2 hlen h
    simp [allocSeq] at h
    obtain ⟨rfl, rfl⟩ := h
    exact ⟨fun u => by simp, fun j hj => by omega⟩
  | succ n ih =>
    intro ds bm start ds2 bm2 hlen h
    simp only [allocSeq] at h
    rcases hfs : findAndSet bm with ⟨s, bm1⟩
    rw [hfs] at h
    by_cases hs : s < 0
    · simp [hs] at h
    · simp only [if_neg hs] at h
      obtain ⟨hlt, hclear, hset, -, hlen1⟩ := findAndSet_nonneg hfs (by omega)
      obtain ⟨ihiff, ihfacts⟩ := ih (by simp; omega) h
      obtain ⟨-, ihout, -⟩ := allocSeq_slots h
      have hval0 : ds2.getD start 0 = s := by
        have h1 : ds2.getD start 0 = (ds.set start s).getD start 0 := ihout start (by omega)
        rw [h1, getD_set_self _ _ _ _ (by omega)]
      constructor
      · intro u
        rw [ihiff u, hset, getD_set_true_iff hlt]
        constructor
        · rintro ((hb | hu) | ⟨j, hj, hv⟩)
          · exact Or.inl hb
          · exact Or.inr ⟨0, by omega, by rw [Nat.add_zero, hval0]; omega⟩
          · exact Or.inr ⟨j + 1, by omega, by rw [show start + (j + 1) = start + 1 + j by omega]; exact hv⟩
        · rintro (hb | ⟨j, hj, hv⟩)
          · exact Or.inl (Or.inl hb)
          · cases j with
            | zero =>
              rw [Nat.add_zero, hval0] at hv
              exact Or.inl (Or.inr (by omega))
            | succ m =>
              exact Or.inr ⟨m, by omega, by rw [show start + 1 + m = start + (m + 1) by omega]; exact hv⟩
      · intro j hj
        cases j with
        | zero =>
          rw [Nat.add_zero, hval0]
          exact ⟨by omega, hlt, hclear⟩
        | succ m =>
          obtain ⟨f1, f2, f3⟩ := ihfacts m (by omega)
          rw [show start + 1 + m = start + (m + 1) by omega] at f1 f2 f3
          rw [hset] at f2 f3
          refine ⟨f1, by simpa using f2, ?_⟩
          by_cases hne : (ds2.getD (start + (m + 1)) 0).toNat = s.toNat
          · rw [hne, getD_set_self _ _ _ _ hlt] at f3
            simp at f3
          · rwa [getD_set_ne _ _ _ _ _ (fun hc => hne hc.symm)] at f3

theorem allocate_marked_direct {cfg : FSConfig} {bm : List Bool} {fileSize : Nat}
    {h : MemHeader} {bm2 : List Bool}
    (hfit : divRoundUp fileSize cfg.sectorSize ≤ cfg.numDirect)
    (heq : allocate cfg bm fileSize = some (true, h, bm2)) :
    (∀ u : Nat, bm2.getD u false = true ↔
      bm.getD u false = true ∨ (u : Int) ∈ h.dataSectors.filter (fun x => x ≠ -1)) ∧
    (∀ j, j < divRoundUp fileSize cfg.sectorSize →
      0 ≤ h.dataSectors.getD j 0 ∧ (h.dataSectors.getD j 0).toNat < bm.length ∧
      bm.getD (h.dataSectors.getD j 0).toNat false = false) ∧
    (∀ j, j < cfg.numIndirect → h.dataSectors.getD (cfg.numDirect + j) 0 = -1 ∧
      h.indirectTable.getD j none = none) ∧
    bm2.length = bm.length := by
  obtain ⟨-, -, hdsl, hitl, -, -, hempty⟩ := allocate_true_struct heq
  unfold allocate at heq
  set ns := divRoundUp fileSize cfg.sectorSize with hns
  by_cases hpre : numClear bm < ns
  · simp [hpre] at heq
  · simp only [if_neg hpre] at heq
    have hsn : (if ns ≤ cfg.numDirect then ns else cfg.numDirect) = ns := if_pos hfit
    rw [hsn] at heq
    have hoff : ns - ns = 0 := by omega
    rcases hseq : allocSeq (List.replicate (cfg.numDirect + cfg.numIndirect) (-1)) bm 0 ns
      with _ | ⟨ds, bm1⟩
    · rw [show ({ mkFileHeader cfg with
          numBytes := (fileSize : Int), numSectors := ((ns : Nat) : Int) } : MemHeader).dataSectors
          = List.replicate (cfg.numDirect + cfg.numIndirect) (-1) from rfl, hseq] at heq
      simp at heq
    · rw [show ({ mkFileHeader cfg with
          numBytes := (fileSize : Int), numSectors := ((ns : Nat) : Int) } : MemHeader).dataSectors
          = List.replicate (cfg.numDirect + cfg.numIndirect) (-1) from rfl, hseq, hoff] at heq
      simp only [Nat.lt_irrefl, if_false] at heq
      simp only [Option.some.injEq, Prod.mk.injEq] at heq
      obtain ⟨-, hh, hbm⟩ := heq
      subst hbm
      obtain ⟨hiff, hfacts⟩ :=
        allocSeq_full (by rw [List.length_replicate]; omega) hseq
      obtain ⟨hdsl2, hout, -⟩ := allocSeq_slots hseq
      rw [List.length_replicate] at hdsl2
      have hdseq : h.dataSectors = ds := by rw [← hh]
      have hm1 : ∀ k, ns ≤ k → k < cfg.numDirect + cfg.numIndirect → ds.getD k 0 = -1 := by
        intro k h1 h2
        rw [hout k (by omega), List.getD_eq_getElem _ _ (by simpa using h2)]
        simp
      have hfiltermem : ∀ u : Nat, ((u : Int) ∈ ds.filter (fun x => x ≠ -1) ↔
          ∃ j, j < ns ∧ ds.getD (0 + j) 0 = (u : Int)) := by
        intro u
        constructor
        · intro hmem
          rw [List.mem_filter] at hmem
          obtain ⟨hmem, -⟩ := hmem
          rw [List.mem_iff_getElem] at hmem
          obtain ⟨idx, hidx, hval⟩ := hmem
          by_cases hidxns : idx < ns
          · refine ⟨idx, hidxns, ?_⟩
            rw [Nat.zero_add, List.getD_eq_getElem _ _ hidx, hval]
          · exfalso
            have := hm1 idx (by omega) (by omega)
            rw [List.getD_eq_getElem _ _ hidx, hval] at this
            omega
        · rintro ⟨j, hj, hval⟩
          rw [Nat.zero_add] at hval
          rw [List.mem_filter]
          constructor
          · rw [← hval, List.getD_eq_getElem _ _ (by omega)]
            exact List.getElem_mem (by omega)
          · simp
      have hK0 : allocK cfg fileSize = 0 := by
        have hoffv : allocOffset cfg fileSize = 0 := by
          rw [allocOffset, allocNS, ← hns, hsn]
          omega
        rw [allocK, hoffv]
        simp
      refine ⟨?_, ?_, ?_, (allocSeq_numClear hseq).2⟩
      · intro u
        rw [hdseq, hiff u, hfiltermem u]
      · intro j hj
        have := hfacts j (by omega)
        rw [Nat.zero_add] at this
        rw [hdseq]
        exact this
      · intro j hj
        exact hempty j (by omega) hj

theorem getD_replicate_false {n u : Nat} : (List.replicate n (false : Bool)).getD u false = false := by
  by_cases hu : u < n
  · rw [List.getD_eq_getElem _ _ (by simpa using hu)]
    simp
  · rw [List.getD_eq_default _ _ (by simpa using hu)]

theorem divRoundUp_pos {a b : Nat} (ha : 0 < a) (hb : 0 < b) : 0 < divRoundUp a b := by
  rw [divRoundUp]
  by_contra hc
  have hq : (a + b - 1) / b = 0 := Nat.eq_zero_of_not_pos hc
  have hlt : a + b - 1 < b := (Nat.div_eq_zero_iff hb).mp hq
  omega

theorem bmInit_iff {n u : Nat} (h2 : 2 ≤ n) :
    (((List.replicate n false).set 0 true).set 1 true).getD u false = true ↔ u = 0 ∨ u = 1 := by
  rw [getD_set_true_iff (by simp; omega), getD_set_true_iff (by simp; omega)]
  rw [getD_replicate_false]
  constructor
  · rintro ((hf | h0) | h1)
    · simp at hf
    · exact Or.inl h0
    · exact Or.inr h1
  · rintro (h0 | h1)
    · exact Or.inl (Or.inr h0)
    · exact Or.inr h1

theorem writeChildren_nochild {cfg : FSConfig} {h : MemHeader} {n : Nat} :
    ∀ (d : Disk) (i : Nat),
    (∀ j, i ≤ j → j < i + n → h.indirectTable.getD j none = none) →
    writeChildren cfg h d i n = some d := by
  induction n with
  | zero => intro d i _; rfl
  | succ n ih =>
    intro d i hnone
    have h0 : h.indirectTable.getD i none = none := hnone i (Nat.le_refl i) (by omega)
    simp only [writeChildren, h0]
    exact ih d (i + 1) (fun j hj1 hj2 => hnone j (by omega) (by omega))

theorem writeHeader_nochild {cfg : FSConfig} {h : MemHeader} {d : Disk} {s : Int}
    (h0 : 0 ≤ s) (h1 : s < (cfg.numSectors : Int))
    (hnone : ∀ j, j < cfg.numIndirect → h.indirectTable.getD j none = none) :
    writeHeader cfg d s h = some ((s.toNat, SectorVal.hdrv h.toRec) :: d) := by
  rw [writeHeader, diskWrite_some h0 h1]
  exact writeChildren_nochild ((s.toNat, SectorVal.hdrv h.toRec) :: d) 0
    (fun j hj1 hj2 => hnone j (by omega))

/-- C2 (amended): from a freshly formatted volume, the persisted free
map marks exactly sectors 0 and 1, the footprints of the free-map file
(header sector 0) and of the root-directory file (header sector 1),
and the footprints of the files reachable from the root (there are
none yet); stated for any geometry whose two system files fit in the
direct slots. -/
theorem format_state_bitmap_consistent (cfg : FSConfig)
    (h2n : 2 ≤ cfg.numSectors) (hss : 0 < cfg.sectorSize)
    (hfm : 0 < cfg.freeMapFileSize) (hdir : 0 < cfg.dirFileSize)
    (hfmfit : divRoundUp cfg.freeMapFileSize cfg.sectorSize ≤ cfg.numDirect)
    (hdirfit : divRoundUp cfg.dirFileSize cfg.sectorSize ≤ cfg.numDirect)
    (d : Disk) (hfmt : format cfg = some d) :
    BitmapConsistentSys cfg d ∧ ∀ e, ¬ EntryReachable cfg d e := by
  have hmark0 : bmMark (List.replicate cfg.numSectors false) 0 =
      some ((List.replicate cfg.numSectors false).set 0 true) := by
    simp only [bmMark, List.length_replicate]
    rw [if_pos (by constructor <;> omega : (0:Int) ≤ 0 ∧ (0:Int) < (cfg.numSectors : Int))]
    rfl
  have hmark1 : bmMark ((List.replicate cfg.numSectors false).set 0 true) 1 =
      some (((List.replicate cfg.numSectors false).set 0 true).set 1 true) := by
    simp only [bmMark, List.length_set, List.length_replicate]
    rw [if_pos (by constructor <;> omega : (0:Int) ≤ 1 ∧ (1:Int) < (cfg.numSectors : Int))]
    rfl
  unfold format at hfmt
  simp only [hmark0, hmark1] at hfmt
  rcases hal1 : allocate cfg (((List.replicate cfg.numSectors false).set 0 true).set 1 true)
      cfg.freeMapFileSize with _ | ⟨ok1, mapHdr, bm3⟩
  · simp [hal1] at hfmt
  · cases ok1 with
    | false => simp [hal1] at hfmt
    | true =>
      simp only [hal1] at hfmt
      rcases hal2 : allocate cfg bm3 cfg.dirFileSize with _ | ⟨ok2, dirHdr, bm4⟩
      · simp [hal2] at hfmt
      · cases ok2 with
        | false => simp [hal2] at hfmt
        | true =>
          simp only [hal2] at hfmt
          obtain ⟨hiff1, hfacts1, hind1, hlen3⟩ := allocate_marked_direct hfmfit hal1
          obtain ⟨hiff2, hfacts2, hind2, -⟩ := allocate_marked_direct hdirfit hal2
          obtain ⟨-, -, hdsl1, -, -, -, -⟩ := allocate_true_struct hal1
          obtain ⟨-, -, hdsl2, -, -, -, -⟩ := allocate_true_struct hal2
          have hlenI : (((List.replicate cfg.numSectors false).set 0 true).set 1 true).length =
              cfg.numSectors := by simp
          have hND : 0 < cfg.numDirect := by
            have := divRoundUp_pos hfm hss
            omega
          have hNI2 : 0 < cfg.numDirect + cfg.numIndirect := by omega
          obtain ⟨hf0nn, hf0lt, hf0clear⟩ := hfacts1 0 (divRoundUp_pos hfm hss)
          rw [hlenI] at hf0lt
          obtain ⟨hg0nn, hg0lt, hg0clear⟩ := hfacts2 0 (divRoundUp_pos hdir hss)
          rw [hlen3, hlenI] at hg0lt
          have hf0ltI : mapHdr.dataSectors.getD 0 0 < (cfg.numSectors : Int) := by omega
          have hg0ltI : dirHdr.dataSectors.getD 0 0 < (cfg.numSectors : Int) := by omega
          have hdp1 : 0 < mapHdr.dataSectors.length := by omega
          have hdp2 : 0 < dirHdr.dataSectors.length := by omega
          have hgd1 : mapHdr.dataSectors.getD 0 (-1) = mapHdr.dataSectors.getD 0 0 := by
            rw [List.getD_eq_getElem _ (-1) hdp1, List.getD_eq_getElem _ 0 hdp1]
          have hgd2 : dirHdr.dataSectors.getD 0 (-1) = dirHdr.dataSectors.getD 0 0 := by
            rw [List.getD_eq_getElem _ (-1) hdp2, List.getD_eq_getElem _ 0 hdp2]
          have hproj1 : (MemHeader.toRec mapHdr).dataSectors = mapHdr.dataSectors := rfl
          have hproj2 : (MemHeader.toRec dirHdr).dataSectors = dirHdr.dataSectors := rfl
          have hf0mem : mapHdr.dataSectors.getD 0 0 ∈
              mapHdr.dataSectors.filter (fun x => x ≠ -1) := by
            rw [List.mem_filter]
            constructor
            · rw [List.getD_eq_getElem _ 0 hdp1]
              exact List.getElem_mem _
            · simp only [decide_eq_true_eq]
              omega
          have hf0ne : (mapHdr.dataSectors.getD 0 0).toNat ≠ 0 ∧
              (mapHdr.dataSectors.getD 0 0).toNat ≠ 1 := by
            have hbmI : (((List.replicate cfg.numSectors false).set 0 true).set 1
                true).getD (mapHdr.dataSectors.getD 0 0).toNat false ≠ true := by
              rw [hf0clear]
              simp
            constructor <;> intro hc
            · exact hbmI (by rw [hc]; exact (bmInit_iff h2n).mpr (Or.inl rfl))
            · exact hbmI (by rw [hc]; exact (bmInit_iff h2n).mpr (Or.inr rfl))
          have hg0ne : (dirHdr.dataSectors.getD 0 0).toNat ≠ 0 ∧
              (dirHdr.dataSectors.getD 0 0).toNat ≠ 1 ∧
              (dirHdr.dataSectors.getD 0 0).toNat ≠ (mapHdr.dataSectors.getD 0 0).toNat := by
            have hbm3 : bm3.getD (dirHdr.dataSectors.getD 0 0).toNat false ≠ true := by
              rw [hg0clear]
              simp
            refine ⟨?_, ?_, ?_⟩ <;> intro hc
            · exact hbm3 ((hiff1 _).mpr (Or.inl (by rw [hc]; exact (bmInit_iff h2n).mpr (Or.inl rfl))))
            · exact hbm3 ((hiff1 _).mpr (Or.inl (by rw [hc]; exact (bmInit_iff h2n).mpr (Or.inr rfl))))
            · exact hbm3 ((hiff1 _).mpr (Or.inr (by rw [hc, Int.toNat_of_nonneg hf0nn]; exact hf0mem)))
          have ht0 : (0:Int).toNat = 0 := rfl
          have ht1 : (1:Int).toNat = 1 := rfl
          have hwh1 : writeHeader cfg [] 0 mapHdr = some ((0, SectorVal.hdrv mapHdr.toRec) :: []) := by
            rw [@writeHeader_nochild cfg mapHdr [] 0 (by omega) (by omega)
              (fun j hj => (hind1 j hj).2)]
            rfl
          have hwh2 : writeHeader cfg ((0, SectorVal.hdrv mapHdr.toRec) :: []) 1 dirHdr = some ((1, SectorVal.hdrv dirHdr.toRec) :: (0, SectorVal.hdrv mapHdr.toRec) :: []) := by
            rw [@writeHeader_nochild cfg dirHdr ((0, SectorVal.hdrv mapHdr.toRec) :: []) 1 (by omega) (by omega)
              (fun j hj => (hind2 j hj).2)]
            rfl
          have hwB : writeBitmap cfg ((1, SectorVal.hdrv dirHdr.toRec) :: (0, SectorVal.hdrv mapHdr.toRec) :: []) bm4 = some (((mapHdr.dataSectors.getD 0 0).toNat, SectorVal.bitv bm4) :: (1, SectorVal.hdrv dirHdr.toRec) :: (0, SectorVal.hdrv mapHdr.toRec) :: []) := by
            have hri : diskReadI cfg ((1, SectorVal.hdrv dirHdr.toRec) :: (0, SectorVal.hdrv mapHdr.toRec) :: []) 0 = some (SectorVal.hdrv mapHdr.toRec) := by
              rw [diskReadI, if_pos (by constructor <;> omega :
                (0:Int) ≤ 0 ∧ (0:Int) < (cfg.numSectors : Int))]
              rw [ht0, diskRead_cons_ne (by decide), diskRead_cons_self]
            simp only [writeBitmap, hri, hproj1, hgd1]
            rw [diskWrite_some hf0nn hf0ltI]
          have hwD : writeDir cfg (((mapHdr.dataSectors.getD 0 0).toNat, SectorVal.bitv bm4) :: (1, SectorVal.hdrv dirHdr.toRec) :: (0, SectorVal.hdrv mapHdr.toRec) :: []) 1 (mkDirectory cfg.numDirEntries) = some (((dirHdr.dataSectors.getD 0 0).toNat, SectorVal.dirv (mkDirectory cfg.numDirEntries)) :: ((mapHdr.dataSectors.getD 0 0).toNat, SectorVal.bitv bm4) :: (1, SectorVal.hdrv dirHdr.toRec) :: (0, SectorVal.hdrv mapHdr.toRec) :: []) := by
            have hri : diskReadI cfg (((mapHdr.dataSectors.getD 0 0).toNat, SectorVal.bitv bm4) :: (1, SectorVal.hdrv dirHdr.toRec) :: (0, SectorVal.hdrv mapHdr.toRec) :: []) 1 = some (SectorVal.hdrv dirHdr.toRec) := by
              rw [diskReadI, if_pos (by constructor <;> omega :
                (0:Int) ≤ 1 ∧ (1:Int) < (cfg.numSectors : Int))]
              rw [ht1, diskRead_cons_ne hf0ne.2, diskRead_cons_self]
            simp only [writeDir, hri, hproj2, hgd2]
            rw [diskWrite_some hg0nn hg0ltI]
          simp only [hwh1, hwh2, hwB, hwD] at hfmt
          injection hfmt with hd
          subst hd
          have hr0 : diskRead (((dirHdr.dataSectors.getD 0 0).toNat, SectorVal.dirv (mkDirectory cfg.numDirEntries)) :: ((mapHdr.dataSectors.getD 0 0).toNat, SectorVal.bitv bm4) :: (1, SectorVal.hdrv dirHdr.toRec) :: (0, SectorVal.hdrv mapHdr.toRec) :: []) 0 = some (SectorVal.hdrv mapHdr.toRec) := by
            rw [diskRead_cons_ne hg0ne.1, diskRead_cons_ne hf0ne.1,
              diskRead_cons_ne (by decide), diskRead_cons_self]
          have hr1 : diskRead (((dirHdr.dataSectors.getD 0 0).toNat, SectorVal.dirv (mkDirectory cfg.numDirEntries)) :: ((mapHdr.dataSectors.getD 0 0).toNat, SectorVal.bitv bm4) :: (1, SectorVal.hdrv dirHdr.toRec) :: (0, SectorVal.hdrv mapHdr.toRec) :: []) 1 = some (SectorVal.hdrv dirHdr.toRec) := by
            rw [diskRead_cons_ne hg0ne.2.1, diskRead_cons_ne hf0ne.2, diskRead_cons_self]
          have hri0 : diskReadI cfg (((dirHdr.dataSectors.getD 0 0).toNat, SectorVal.dirv (mkDirectory cfg.numDirEntries)) :: ((mapHdr.dataSectors.getD 0 0).toNat, SectorVal.bitv bm4) :: (1, SectorVal.hdrv dirHdr.toRec) :: (0, SectorVal.hdrv mapHdr.toRec) :: []) 0 = some (SectorVal.hdrv mapHdr.toRec) := by
            rw [diskReadI, if_pos (by constructor <;> omega :
              (0:Int) ≤ 0 ∧ (0:Int) < (cfg.numSectors : Int))]
            rw [ht0]
            exact hr0
          have hri1 : diskReadI cfg (((dirHdr.dataSectors.getD 0 0).toNat, SectorVal.dirv (mkDirectory cfg.numDirEntries)) :: ((mapHdr.dataSectors.getD 0 0).toNat, SectorVal.bitv bm4) :: (1, SectorVal.hdrv dirHdr.toRec) :: (0, SectorVal.hdrv mapHdr.toRec) :: []) 1 = some (SectorVal.hdrv dirHdr.toRec) := by
            rw [diskReadI, if_pos (by constructor <;> omega :
              (0:Int) ≤ 1 ∧ (1:Int) < (cfg.numSectors : Int))]
            rw [ht1]
            exact hr1
          have hriF : diskReadI cfg (((dirHdr.dataSectors.getD 0 0).toNat, SectorVal.dirv (mkDirectory cfg.numDirEntries)) :: ((mapHdr.dataSectors.getD 0 0).toNat, SectorVal.bitv bm4) :: (1, SectorVal.hdrv dirHdr.toRec) :: (0, SectorVal.hdrv mapHdr.toRec) :: []) (mapHdr.dataSectors.getD 0 0) =
              some (SectorVal.bitv bm4) := by
            rw [diskReadI, if_pos ⟨hf0nn, hf0ltI⟩]
            rw [diskRead_cons_ne hg0ne.2.2, diskRead_cons_self]
          have hriG : diskReadI cfg (((dirHdr.dataSectors.getD 0 0).toNat, SectorVal.dirv (mkDirectory cfg.numDirEntries)) :: ((mapHdr.dataSectors.getD 0 0).toNat, SectorVal.bitv bm4) :: (1, SectorVal.hdrv dirHdr.toRec) :: (0, SectorVal.hdrv mapHdr.toRec) :: []) (dirHdr.dataSectors.getD 0 0) =
              some (SectorVal.dirv (mkDirectory cfg.numDirEntries)) := by
            rw [diskReadI, if_pos ⟨hg0nn, hg0ltI⟩]
            rw [diskRead_cons_self]
          have hrbm : readBitmap cfg (((dirHdr.dataSectors.getD 0 0).toNat, SectorVal.dirv (mkDirectory cfg.numDirEntries)) :: ((mapHdr.dataSectors.getD 0 0).toNat, SectorVal.bitv bm4) :: (1, SectorVal.hdrv dirHdr.toRec) :: (0, SectorVal.hdrv mapHdr.toRec) :: []) = some bm4 := by
            simp only [readBitmap, hri0, hproj1, hgd1, hriF]
          have hrdir : readDir cfg (((dirHdr.dataSectors.getD 0 0).toNat, SectorVal.dirv (mkDirectory cfg.numDirEntries)) :: ((mapHdr.dataSectors.getD 0 0).toNat, SectorVal.bitv bm4) :: (1, SectorVal.hdrv dirHdr.toRec) :: (0, SectorVal.hdrv mapHdr.toRec) :: []) 1 = some (mkDirectory cfg.numDirEntries) := by
            simp only [readDir, hri1, hproj2, hgd2, hriG]
          have hmtempty : ∀ e, e ∈ mkDirectory cfg.numDirEntries → e.inUse = false := by
            intro e he
            rw [mkDirectory] at he
            rw [List.eq_of_mem_replicate he]
            rfl
          obtain ⟨-, hnone⟩ := reachdir_empty_root hrdir hmtempty
          have hcov0 : ∀ w : Nat, FileCovers cfg (((dirHdr.dataSectors.getD 0 0).toNat, SectorVal.dirv (mkDirectory cfg.numDirEntries)) :: ((mapHdr.dataSectors.getD 0 0).toNat, SectorVal.bitv bm4) :: (1, SectorVal.hdrv dirHdr.toRec) :: (0, SectorVal.hdrv mapHdr.toRec) :: []) 0 w ↔
              (w = 0 ∨ (w : Int) ∈ mapHdr.dataSectors.filter (fun x => x ≠ -1)) := by
            intro w
            unfold FileCovers
            constructor
            · rintro (h | ⟨r, hrr, hmem | ⟨j, hj, hne, -⟩⟩)
              · exact Or.inl h
              · rw [hr0] at hrr
                simp only [Option.some.injEq, SectorVal.hdrv.injEq] at hrr
                subst hrr
                exact Or.inr hmem
              · rw [hr0] at hrr
                simp only [Option.some.injEq, SectorVal.hdrv.injEq] at hrr
                subst hrr
                exact absurd (hind1 j hj).1 hne
            · rintro (h | h)
              · exact Or.inl h
              · exact Or.inr ⟨mapHdr.toRec, hr0, Or.inl h⟩
          have hcov1 : ∀ w : Nat, FileCovers cfg (((dirHdr.dataSectors.getD 0 0).toNat, SectorVal.dirv (mkDirectory cfg.numDirEntries)) :: ((mapHdr.dataSectors.getD 0 0).toNat, SectorVal.bitv bm4) :: (1, SectorVal.hdrv dirHdr.toRec) :: (0, SectorVal.hdrv mapHdr.toRec) :: []) 1 w ↔
              (w = 1 ∨ (w : Int) ∈ dirHdr.dataSectors.filter (fun x => x ≠ -1)) := by
            intro w
            unfold FileCovers
            constructor
            · rintro (h | ⟨r, hrr, hmem | ⟨j, hj, hne, -⟩⟩)
              · exact Or.inl h
              · rw [hr1] at hrr
                simp only [Option.some.injEq, SectorVal.hdrv.injEq] at hrr
                subst hrr
                exact Or.inr hmem
              · rw [hr1] at hrr
                simp only [Option.some.injEq, SectorVal.hdrv.injEq] at hrr
                subst hrr
                exact absurd (hind2 j hj).1 hne
            · rintro (h | h)
              · exact Or.inl h
              · exact Or.inr ⟨dirHdr.toRec, hr1, Or.inl h⟩
          refine ⟨?_, hnone⟩
          unfold BitmapConsistentSys
          refine ⟨bm4, hrbm, ?_⟩
          intro u hu
          rw [hiff2 u, hiff1 u, bmInit_iff h2n, hcov0 u, hcov1 u]
          constructor
          · rintro ((h01 | hmap) | hdirm)
            · rcases h01 with h | h
              · exact Or.inl (Or.inl h)
              · exact Or.inr (Or.inl (Or.inl h))
            · exact Or.inl (Or.inr hmap)
            · exact Or.inr (Or.inl (Or.inr hdirm))
          · rintro (hc | hc | ⟨e, he, -⟩)
            · rcases hc with h | h
              · exact Or.inl (Or.inl (Or.inl h))
              · exact Or.inl (Or.inr h)
            · rcases hc with h | h
              · exact Or.inl (Or.inl (Or.inr h))
              · exact Or.inr h
            · exact absurd he (hnone e)

theorem format_state_bitmap_consistent_witness :
    (2 ≤ cfgV.numSectors ∧ 0 < cfgV.sectorSize ∧ 0 < cfgV.freeMapFileSize ∧
      0 < cfgV.dirFileSize ∧
      divRoundUp cfgV.freeMapFileSize cfgV.sectorSize ≤ cfgV.numDirect ∧
      divRoundUp cfgV.dirFileSize cfgV.sectorSize ≤ cfgV.numDirect ∧
      format cfgV = some dF) ∧
    (BitmapConsistentSys cfgV dF ∧ ∀ e, ¬ EntryReachable cfgV dF e) :=
  ⟨⟨by decide, by decide, by decide, by decide, by decide, by decide, by decide⟩,
    format_state_bitmap_consistent cfgV (by decide) (by decide) (by decide) (by decide)
      (by decide) (by decide) dF (by decide)⟩
